import Mathlib

/-!
A shallow embedding of the todo-app task store (`app/hooks/useTodos`,
`app/utils`, `app/types`) and proofs about its operations.

Conventions of the embedding:
* JavaScript optional fields (`field?: T`) become `Option T`.
* JavaScript numbers holding millisecond instants, identifiers and durations
  become `Int` (subtraction appears in the timer code); counters become `Nat`.
* JavaScript truthiness tests on optional values are embedded by the
  `truthyNum` / `truthyStr` / `truthyBool` helpers (`0`, `""` and `false`
  are falsy).
* Calls to `Date.now()` / `new Date().toISOString()` become explicit
  parameters (`nowMs : Int`, `nowISO : String`) of the operations.
* React `setTodos` updates become functions `List Todo → List Todo`; the
  pieces of component state an operation reads (`editText`, `subtaskInput`,
  the drag source id, ...) become parameters.
-/

namespace TodoApp

/-- Embeds `type Priority = "high" | "medium" | "low"`. -/
inductive Priority where
| high
| medium
| low
deriving DecidableEq

/-- Embeds `type RecurringType = "daily" | "weekly" | "monthly"`. -/
inductive RecurringType where
| daily
| weekly
| monthly
deriving DecidableEq

/-- Embeds `interface Subtask`: id, text, completed. -/
structure Subtask where
id : Int
text : String
completed : Bool
deriving DecidableEq

/-- Embeds `interface Todo` from `app/types.ts`. -/
structure Todo where
id : Int
text : String
completed : Bool
createdAt : String
completedAt : Option String := none
pomodoroStartTime : Option Int := none
pomodoroDuration : Option Int := none
pomodoroPaused : Option Bool := none
pomodoroTimeRemaining : Option Int := none
pomodoroIsBreak : Option Bool := none
pomodoroCount : Option Nat := none
dueDate : Option String := none
priority : Option Priority := none
order : Option Int := none
category : Option String := none
subtasks : Option (List Subtask) := none
recurring : Option RecurringType := none
notes : Option String := none
tags : Option (List String) := none
timeEstimate : Option Int := none
deriving DecidableEq

/-- JS truthiness of an optional number (`undefined` and `0` are falsy). -/
def truthyNum : Option Int → Bool
| none => false
| some v => v != 0

/-- JS truthiness of an optional string (`undefined` and `""` are falsy). -/
def truthyStr : Option String → Bool
| none => false
| some s => s != ""

/-- JS truthiness of an optional boolean (`undefined` and `false` are falsy). -/
def truthyBool : Option Bool → Bool
| none => false
| some b => b

/-! ## Calendar arithmetic (`getNextDueDate` in `app/utils.ts`)

The source parses `currentDate + "T00:00:00"` into a JS `Date`, applies
`setDate`/`setMonth`, and formats the result back as `YYYY-MM-DD`.  We embed
the Gregorian normalization that backs `setDate`/`setMonth`: an out-of-range
day-of-month rolls forward into the following months. -/

/-- A local calendar date, as the `(getFullYear, getMonth+1, getDate)` triple
of a JS `Date`.  `month` is 1-based. -/
structure CalDate where
year : Nat
month : Nat
day : Nat
deriving DecidableEq

/-- Gregorian leap-year rule (as implemented by the JS `Date` object). -/
def isLeapYear (y : Nat) : Bool :=
(y % 4 == 0 && y % 100 != 0) || (y % 400 == 0)

/-- Number of days of month `m` (1-based) of year `y`. -/
def daysInMonth (y m : Nat) : Nat :=
if m = 2 then (if isLeapYear y then 29 else 28)
else if m = 4 ∨ m = 6 ∨ m = 9 ∨ m = 11 then 30
else 31

theorem daysInMonth_pos (y m : Nat) : 0 < daysInMonth y m := by
unfold daysInMonth
repeat' split
all_goals omega

theorem daysInMonth_ge (y m : Nat) : 28 ≤ daysInMonth y m := by
unfold daysInMonth
repeat' split
all_goals omega

theorem daysInMonth_le (y m : Nat) : daysInMonth y m ≤ 31 := by
unfold daysInMonth
repeat' split
all_goals omega

/-- JS `Date` day-of-month normalization, fuel-indexed: while the day
exceeds the month length, subtract the month length and move to the next
month.  Every loop iteration strictly decreases `d`, so `d` itself is
sufficient fuel. -/
def normDaysAux : Nat → Nat → Nat → Nat → CalDate
| 0, y, m, d => ⟨y, m, d⟩
| Nat.succ fuel, y, m, d =>
  if daysInMonth y m < d then
    normDaysAux fuel (if 12 ≤ m then y + 1 else y) (if 12 ≤ m then 1 else m + 1)
      (d - daysInMonth y m)
  else ⟨y, m, d⟩

/-- JS `Date` day-of-month overflow normalization ("MakeDay" of the
ECMAScript specification, restricted to day overflow, the only kind the
todo app produces). -/
def normDays (y m d : Nat) : CalDate :=
normDaysAux d y m d

/-- Core of `getNextDueDate` on an already parsed local date: the `switch` of
`app/utils.ts` (`setDate(+1)`, `setDate(+7)`, `setMonth(+1)`). -/
def nextDueDateCal (dt : CalDate) : RecurringType → CalDate
| RecurringType.daily => normDays dt.year dt.month (dt.day + 1)
| RecurringType.weekly => normDays dt.year dt.month (dt.day + 7)
| RecurringType.monthly =>
  if dt.month = 12 then normDays (dt.year + 1) 1 dt.day
  else normDays dt.year (dt.month + 1) dt.day

/-- Split a character list on `-` separators. -/
def splitOnDash (acc : List Char) : List Char → List (List Char)
| [] => [acc.reverse]
| '-' :: rest => acc.reverse :: splitOnDash [] rest
| c :: rest => splitOnDash (c :: acc) rest

/-- Read a non-empty all-digit character list as a decimal number. -/
def decToNat? (cs : List Char) : Option Nat :=
if cs.isEmpty || !cs.all Char.isDigit then none
else some (cs.foldl (fun n c => n * 10 + (c.toNat - '0'.toNat)) 0)

/-- Parse a `YYYY-MM-DD` string (the shape `new Date(s + "T00:00:00")`
accepts in the app). -/
def parseDueDate (s : String) : Option CalDate :=
match splitOnDash [] s.toList with
| [ys, ms, ds] =>
  match decToNat? ys, decToNat? ms, decToNat? ds with
  | some y, some m, some d => some ⟨y, m, d⟩
  | _, _, _ => none
| _ => none

/-- Embeds `String(x).padStart(2, "0")`. -/
def pad2 (n : Nat) : String :=
if n < 10 then "0" ++ toString n else toString n

/-- The template literal
`` `${getFullYear()}-${pad2 (getMonth+1)}-${pad2 getDate}` ``. -/
def dateToString (dt : CalDate) : String :=
toString dt.year ++ "-" ++ pad2 dt.month ++ "-" ++ pad2 dt.day

/-- Embeds `getNextDueDate(currentDate, recurringType)` of `app/utils.ts`.  An
unparsable input makes the JS `Date` invalid and every component format as
`"NaN"`; the embedding returns the same literal result. -/
def getNextDueDate (currentDate : String) (recurringType : RecurringType) : String :=
match parseDueDate currentDate with
| some dt => dateToString (nextDueDateCal dt recurringType)
| none => "NaN-NaN-NaN"

/-- A date is a real calendar date. -/
def validDate (dt : CalDate) : Prop :=
1 ≤ dt.month ∧ dt.month ≤ 12 ∧ 1 ≤ dt.day ∧ dt.day ≤ daysInMonth dt.year dt.month

instance : DecidablePred validDate := fun dt => by
unfold validDate; infer_instance

/-- The specification notion "plus 1 calendar day": the successor day on the
Gregorian calendar. -/
def specNextCalendarDay (dt : CalDate) : CalDate :=
if dt.day < daysInMonth dt.year dt.month then ⟨dt.year, dt.month, dt.day + 1⟩
else if dt.month < 12 then ⟨dt.year, dt.month + 1, 1⟩
else ⟨dt.year + 1, 1, 1⟩

/-- The specification notion "same day of the next calendar month" (possibly
not a real date — day overflow is the rollover case). -/
def specSameDayNextMonth (dt : CalDate) : CalDate :=
if dt.month = 12 then ⟨dt.year + 1, 1, dt.day⟩ else ⟨dt.year, dt.month + 1, dt.day⟩

/-! ## Statistics (`calculateStats` in `app/utils.ts`) -/

/-- Embeds `interface Stats` from `app/types.ts`.  The three breakdown objects are
modelled as insertion-ordered association lists, matching JS object key
order. -/
structure Stats where
total : Nat
active : Nat
completed : Nat
completedToday : Nat
completedThisWeek : Nat
totalPomodoros : Nat
pomodoroMinutes : Nat
totalTimeEstimate : Int
overdue : Nat
completionRate : Int
byCategory : List (String × Nat)
byPriority : List (String × Nat)
byTag : List (String × Nat)
deriving DecidableEq

/-- Read `m[k] || 0` from a JS object modelled as an association list. -/
def objGet (m : List (String × Nat)) (k : String) : Nat :=
((m.find? (fun p => p.1 == k)).map Prod.snd).getD 0

/-- Write `m[k] = v` on a JS object: update in place, or append a new key. -/
def objSet (m : List (String × Nat)) (k : String) (v : Nat) : List (String × Nat) :=
if (m.find? (fun p => p.1 == k)).isSome then
  m.map (fun p => if p.1 == k then (k, v) else p)
else m ++ [(k, v)]

/-- Perform `m[k] = (m[k] || 0) + 1`. -/
def objIncr (m : List (String × Nat)) (k : String) : List (String × Nat) :=
objSet m k (objGet m k + 1)

/-- The string key a `Priority` value indexes `byPriority` with. -/
def priorityKey : Priority → String
| Priority.high => "high"
| Priority.medium => "medium"
| Priority.low => "low"

/-- Embeds `Math.round` on the exact value of a JS number: round half up
(the ECMAScript specification rounds the mathematical value of the argument,
ties toward positive infinity). -/
def jsRound (q : ℚ) : ℤ := ⌊q + 1/2⌋

/-! ### IEEE-754 binary64 rounding

JS arithmetic runs on IEEE-754 doubles, so each arithmetic operation rounds
its exact result to 53 bits of significand (round to nearest, ties to
even).  A finite double is an exact rational, so we model a double by its
exact value in `ℚ` and each operation by exact arithmetic followed by the
rounding function `fl`. -/

/-- Fuel-indexed floor base-2 logarithm; the fuel only bounds the
recursion and `n` itself always suffices. -/
def natLog2F : Nat → Nat → Nat
| 0, _ => 0
| Nat.succ f, n => if 2 ≤ n then natLog2F f (n / 2) + 1 else 0

/-- Floor base-2 logarithm of a positive natural number. -/
def natLog2 (n : Nat) : Nat := natLog2F n n

/-- Floor base-2 logarithm of the absolute value of a rational, computed
from its reduced numerator and denominator. -/
def ratFloorLog2 (q : ℚ) : ℤ :=
if natLog2 q.den ≤ natLog2 q.num.natAbs then
  (if q.den * 2 ^ (natLog2 q.num.natAbs - natLog2 q.den) ≤ q.num.natAbs
   then ((natLog2 q.num.natAbs - natLog2 q.den : ℕ) : ℤ)
   else ((natLog2 q.num.natAbs - natLog2 q.den : ℕ) : ℤ) - 1)
else
  (if q.den ≤ q.num.natAbs * 2 ^ (natLog2 q.den - natLog2 q.num.natAbs)
   then -((natLog2 q.den - natLog2 q.num.natAbs : ℕ) : ℤ)
   else -((natLog2 q.den - natLog2 q.num.natAbs : ℕ) : ℤ) - 1)

/-- Round a rational to the nearest integer multiple of `2^e`, ties to the
even multiple. -/
def roundToQuantum (q : ℚ) (e : ℤ) : ℚ :=
if (1:ℚ)/2 < q / (2:ℚ)^e - ⌊q / (2:ℚ)^e⌋ then ((⌊q / (2:ℚ)^e⌋ + 1 : ℤ) : ℚ) * (2:ℚ)^e
else if q / (2:ℚ)^e - ⌊q / (2:ℚ)^e⌋ < 1/2 then ((⌊q / (2:ℚ)^e⌋ : ℤ) : ℚ) * (2:ℚ)^e
else if ⌊q / (2:ℚ)^e⌋ % 2 = 0 then ((⌊q / (2:ℚ)^e⌋ : ℤ) : ℚ) * (2:ℚ)^e
else ((⌊q / (2:ℚ)^e⌋ + 1 : ℤ) : ℚ) * (2:ℚ)^e

/-- Round an exact rational to the nearest IEEE-754 binary64 value (round
to nearest, ties to even): the rounding quantum is `2^(⌊log2 |q|⌋ - 52)`
for normal magnitudes and `2^(-1074)` in the subnormal range.  Overflow to
infinity is not modelled; every value the todo app computes here is below
`2^7`. -/
def fl (q : ℚ) : ℚ :=
if q = 0 then 0
else roundToQuantum q (max (ratFloorLog2 q - 52) (-1074))

/-- Embeds `calculateStats(todos)` of `app/utils.ts`.  The ambient clock and the
locale-dependent `Date` parsing are passed explicitly: `parse s` stands for
`new Date(s).getTime()`, `noww` for the sampled `now.getTime()` and
`todayStart` for local midnight
`new Date(getFullYear, getMonth, getDate).getTime()`.  The two
floating-point operations of `Math.round((completed/total) * 100)` — the
division and the multiplication by 100 — are each modelled by the binary64
rounding `fl`; the integer operands and the literal 100 are exact doubles
(JS array lengths are below `2^32`). -/
def calculateStats (parse : String → Int) (noww todayStart : Int)
  (todos : List Todo) : Stats :=
let weekAgo : Int := todayStart - 7 * 24 * 60 * 60 * 1000
let completedTodos := todos.filter (fun t => t.completed)
let activeTodos := todos.filter (fun t => !t.completed)
let completedToday := completedTodos.filter (fun t =>
  if truthyStr t.completedAt then todayStart ≤ parse (t.completedAt.getD "") else false)
let completedThisWeek := completedTodos.filter (fun t =>
  if truthyStr t.completedAt then weekAgo ≤ parse (t.completedAt.getD "") else false)
let totalPomodoros := todos.foldl (fun sum t => sum + t.pomodoroCount.getD 0) 0
let totalTimeEstimate := activeTodos.foldl (fun sum t => sum + t.timeEstimate.getD 0) 0
let overdueTasks := activeTodos.filter (fun t =>
  if truthyStr t.dueDate then parse (t.dueDate.getD "" ++ "T23:59:59") < noww else false)
let groups := activeTodos.foldl
  (fun (acc : List (String × Nat) × List (String × Nat) × List (String × Nat)) t =>
    let bc := if truthyStr t.category then objIncr acc.1 (t.category.getD "") else acc.1
    let bp := match t.priority with
      | some p => objIncr acc.2.1 (priorityKey p)
      | none => acc.2.1
    let bt := (t.tags.getD []).foldl (fun m tag => objIncr m tag) acc.2.2
    (bc, bp, bt))
  ([], [("high", 0), ("medium", 0), ("low", 0)], [])
{ total := todos.length
  active := activeTodos.length
  completed := completedTodos.length
  completedToday := completedToday.length
  completedThisWeek := completedThisWeek.length
  totalPomodoros := totalPomodoros
  pomodoroMinutes := totalPomodoros * 25
  totalTimeEstimate := totalTimeEstimate
  overdue := overdueTasks.length
  completionRate := if todos.length > 0
    then jsRound (fl (fl ((completedTodos.length : ℚ) / (todos.length : ℚ)) * 100))
    else 0
  byCategory := groups.1
  byPriority := groups.2.1
  byTag := groups.2.2 }

/-! ## Store operations (`app/hooks/useTodos.ts`) -/

/-- A whitespace character in the sense of JS `String.prototype.trim`
(restricted to the ASCII whitespace the app can receive). -/
def isWsChar (c : Char) : Bool :=
c == ' ' || c == '\t' || c == '\n' || c == '\r' || c == '\x0b' || c == '\x0c'

/-- JS `String.prototype.trim`, modelled on the character list. -/
def jsTrim (s : String) : String :=
String.mk (((s.toList.dropWhile isWsChar).reverse.dropWhile isWsChar).reverse)

/-- Embeds `addTodo(text, options)`.  `nowMs` is `Date.now()` (the fresh id),
`nowISO` is `new Date().toISOString()` and `todayStr` is
`getTodayDateString()`. -/
def addTodo (text : String) (dueDate : Option String) (priority : Option Priority)
  (category : Option String) (recurring : Option RecurringType)
  (tags : Option (List String)) (timeEstimate : Option Int)
  (nowMs : Int) (nowISO : String) (todayStr : String)
  (todos : List Todo) : List Todo :=
if jsTrim text == "" then todos
else
  let maxOrder := (todos.map (fun t => t.order.getD 0)).foldl max 0
  let newTodo : Todo :=
    { id := nowMs
      text := text
      completed := false
      createdAt := nowISO
      dueDate := some (if truthyStr dueDate then dueDate.getD "" else todayStr)
      priority := priority
      order := some (maxOrder + 1)
      category := category
      recurring := recurring
      tags := match tags with
        | some l => if l.length > 0 then some l else none
        | none => none
      timeEstimate := timeEstimate }
  todos ++ [newTodo]

/-- The per-element update of the recurring branch of `toggleTodo`: mark the
matched task completed and strip its recurrence rule. -/
def markCompletedUpd (id : Int) (nowISO : String) (t : Todo) : Todo :=
if t.id == id then
  { t with completed := true, completedAt := some nowISO, recurring := none }
else t

/-- The per-element update of the plain branch of `toggleTodo`: flip
`completed`, setting `completedAt` on false→true and clearing it on
true→false. -/
def plainToggleUpd (id : Int) (nowISO : String) (t : Todo) : Todo :=
if t.id == id then
  { t with completed := !t.completed
           completedAt := if !t.completed then some nowISO else none }
else t

/-- The new sibling task the recurring branch of `toggleTodo` inserts. -/
def spawnRecurringTodo (todo : Todo) (newId : Int) (nowISO : String) : Todo :=
{ todo with
  id := newId
  completed := false
  createdAt := nowISO
  completedAt := none
  dueDate := some (getNextDueDate (todo.dueDate.getD "")
    (todo.recurring.getD RecurringType.daily))
  pomodoroStartTime := none
  pomodoroDuration := none
  pomodoroPaused := none
  pomodoroTimeRemaining := none
  pomodoroIsBreak := none
  pomodoroCount := some 0
  subtasks := todo.subtasks.map (fun sts =>
    sts.enum.map (fun p => { p.2 with id := newId + (p.1 : Int) + 1, completed := false })) }

/-- Embeds `toggleTodo(id)`.  The generated identifier
`Date.now() + Math.floor(Math.random() * 1000)` is `nowMs + idOffset`. -/
def toggleTodo (id idOffset nowMs : Int) (nowISO : String) (todos : List Todo) : List Todo :=
match todos.find? (fun t => t.id == id) with
| none => todos
| some todo =>
  if !todo.completed && todo.recurring.isSome && truthyStr todo.dueDate then
    todos.map (markCompletedUpd id nowISO)
      ++ [spawnRecurringTodo todo (nowMs + idOffset) nowISO]
  else
    todos.map (plainToggleUpd id nowISO)

/-- The store state relevant to deletion/undo: the collection, the
single-slot undo buffer (`deletedTodo`) and the toast flag.  The 5-second
grace timer is modelled by the explicit expiry event `undoTimeoutFire`;
arming a new timer on delete supersedes (cancels) any pending one. -/
structure StoreState where
todos : List Todo
deletedTodo : Option Todo
showUndoToast : Bool
deriving DecidableEq

/-- Embeds `deleteTodo(id)`: remove the task, hold a copy in the undo buffer and
(re-)arm the 5-second grace timer. -/
def deleteTodo (id : Int) (st : StoreState) : StoreState :=
match st.todos.find? (fun t => t.id == id) with
| none => st
| some todoToDelete =>
  { todos := st.todos.filter (fun t => !(t.id == id))
    deletedTodo := some todoToDelete
    showUndoToast := true }

/-- Embeds `undoDelete()`: re-append the held task and clear the buffer/timer. -/
def undoDelete (st : StoreState) : StoreState :=
match st.deletedTodo with
| some t => { todos := st.todos ++ [t], deletedTodo := none, showUndoToast := false }
| none => st

/-- Embeds `dismissUndoToast()`. -/
def dismissUndoToast (st : StoreState) : StoreState :=
{ st with showUndoToast := false, deletedTodo := none }

/-- The 5-second grace-period timeout armed by `deleteTodo` firing. -/
def undoTimeoutFire (st : StoreState) : StoreState :=
{ st with showUndoToast := false, deletedTodo := none }

/-- Embeds `restoreTodo(id)` (archive restore). -/
def restoreTodo (id : Int) (todos : List Todo) : List Todo :=
todos.map (fun todo =>
  if todo.id == id then { todo with completed := false, completedAt := none } else todo)

/-- Embeds `clearAllCompleted()` (after the user confirms). -/
def clearAllCompleted (todos : List Todo) : List Todo :=
todos.filter (fun todo => !todo.completed)

/-- Embeds `addSubtask(todoId)`; `rawText` is `subtaskInput[todoId]` and `nowMs`
the fresh subtask id `Date.now()`. -/
def addSubtask (todoId : Int) (rawText : Option String) (nowMs : Int)
  (todos : List Todo) : List Todo :=
if !truthyStr (rawText.map jsTrim) then todos
else todos.map (fun todo =>
  if todo.id == todoId then
    { todo with subtasks := some (todo.subtasks.getD []
        ++ [⟨nowMs, (rawText.map jsTrim).getD "", false⟩]) }
  else todo)

/-- Embeds `toggleSubtask(todoId, subtaskId)`. -/
def toggleSubtask (todoId subtaskId : Int) (todos : List Todo) : List Todo :=
todos.map (fun todo =>
  if todo.id == todoId then
    { todo with subtasks := todo.subtasks.map (fun sts => sts.map (fun st =>
        if st.id == subtaskId then { st with completed := !st.completed } else st)) }
  else todo)

/-- Embeds `deleteSubtask(todoId, subtaskId)`. -/
def deleteSubtask (todoId subtaskId : Int) (todos : List Todo) : List Todo :=
todos.map (fun todo =>
  if todo.id == todoId then
    { todo with subtasks := todo.subtasks.map (fun sts =>
        sts.filter (fun st => !(st.id == subtaskId))) }
  else todo)

/-- Embeds `saveNotes(id)`; `notesInput` is the notes editor state. -/
def saveNotes (id : Int) (notesInput : String) (todos : List Todo) : List Todo :=
todos.map (fun todo =>
  if todo.id == id then { todo with notes := some notesInput } else todo)

/-- Embeds `addTagToTask(todoId)`; `rawInput` is `tagInputForTask[todoId]`. -/
def addTagToTask (todoId : Int) (rawInput : Option String) (todos : List Todo) : List Todo :=
if !truthyStr (rawInput.map jsTrim) then todos
else todos.map (fun todo =>
  if todo.id == todoId && !((todo.tags.getD []).contains ((rawInput.map jsTrim).getD "")) then
    { todo with tags := some (todo.tags.getD [] ++ [(rawInput.map jsTrim).getD ""]) }
  else todo)

/-- Embeds `removeTagFromTask(todoId, tag)`. -/
def removeTagFromTask (todoId : Int) (tag : String) (todos : List Todo) : List Todo :=
todos.map (fun todo =>
  if todo.id == todoId then
    { todo with tags := todo.tags.map (fun ts => ts.filter (fun t => !(t == tag))) }
  else todo)

/-- Embeds `updateTimeEstimate(todoId, minutes)`. -/
def updateTimeEstimate (todoId : Int) (minutes : Option Int) (todos : List Todo) : List Todo :=
todos.map (fun todo =>
  if todo.id == todoId then { todo with timeEstimate := minutes } else todo)

/-- Embeds `saveEdit(id)`; `editText` is the edit field state. -/
def saveEdit (id : Int) (editText : String) (todos : List Todo) : List Todo :=
if jsTrim editText == "" then todos
else todos.map (fun todo =>
  if todo.id == id then { todo with text := editText } else todo)

/-- Embeds `handleDragOver(e, targetId)` with drag source `draggedId`: splice the
dragged task out, splice it back in at the target's original index, then
reassign every `order` field to the positional index. -/
def handleDragOver (draggedId targetId : Int) (todos : List Todo) : List Todo :=
if draggedId == targetId then todos
else
  match todos.findIdx? (fun t => t.id == draggedId),
        todos.findIdx? (fun t => t.id == targetId) with
  | some draggedIndex, some targetIndex =>
    match todos.get? draggedIndex with
    | some draggedTodo =>
      let newTodos := (todos.eraseIdx draggedIndex).insertIdx targetIndex draggedTodo
      newTodos.enum.map (fun p => { p.2 with order := some (p.1 : Int) })
    | none => todos
  | _, _ => todos

/-! ## Pomodoro operations (`app/hooks/useTodos.ts`) -/

/-- Per-element update of `startPomodoro(id)`. -/
def startPomodoroUpd (id nowMs : Int) (todo : Todo) : Todo :=
if todo.id == id then
  { todo with
    pomodoroStartTime := some nowMs
    pomodoroDuration := some (25 * 60 * 1000)
    pomodoroPaused := some false
    pomodoroTimeRemaining := none
    pomodoroIsBreak := some false
    pomodoroCount := some (todo.pomodoroCount.getD 0) }
else todo

/-- Embeds `startPomodoro(id)` at instant `nowMs`. -/
def startPomodoro (id nowMs : Int) (todos : List Todo) : List Todo :=
todos.map (startPomodoroUpd id nowMs)

/-- Per-element update of `pausePomodoro(id)`. -/
def pausePomodoroUpd (id nowMs : Int) (todo : Todo) : Todo :=
if todo.id == id && truthyNum todo.pomodoroStartTime then
  let elapsed := nowMs - todo.pomodoroStartTime.getD 0
  let remaining := todo.pomodoroDuration.getD 0 - elapsed
  { todo with pomodoroPaused := some true, pomodoroTimeRemaining := some remaining }
else todo

/-- Embeds `pausePomodoro(id)` at instant `nowMs`. -/
def pausePomodoro (id nowMs : Int) (todos : List Todo) : List Todo :=
todos.map (pausePomodoroUpd id nowMs)

/-- Per-element update of `resumePomodoro(id)`. -/
def resumePomodoroUpd (id nowMs : Int) (todo : Todo) : Todo :=
if todo.id == id && truthyBool todo.pomodoroPaused then
  { todo with
    pomodoroStartTime := some nowMs
    pomodoroDuration := todo.pomodoroTimeRemaining
    pomodoroPaused := some false
    pomodoroTimeRemaining := none }
else todo

/-- Embeds `resumePomodoro(id)` at instant `nowMs`. -/
def resumePomodoro (id nowMs : Int) (todos : List Todo) : List Todo :=
todos.map (resumePomodoroUpd id nowMs)

/-- Per-element update of `resetPomodoro(id)`. -/
def resetPomodoroUpd (id : Int) (todo : Todo) : Todo :=
if todo.id == id then
  { todo with
    pomodoroStartTime := none
    pomodoroDuration := none
    pomodoroPaused := none
    pomodoroTimeRemaining := none
    pomodoroIsBreak := none
    pomodoroCount := some 0 }
else todo

/-- Embeds `resetPomodoro(id)`. -/
def resetPomodoro (id : Int) (todos : List Todo) : List Todo :=
todos.map (resetPomodoroUpd id)

/-- The timer-completion effect of `useTodos` applied to one task:
`currentTime` is the sampled tick instant the expiry test uses, `nowMs` the
`Date.now()` the new break start is taken from. -/
def tickUpd (currentTime nowMs : Int) (todo : Todo) : Todo :=
if truthyNum todo.pomodoroStartTime && !truthyBool todo.pomodoroPaused
    && !todo.completed then
  let elapsed := currentTime - todo.pomodoroStartTime.getD 0
  let remaining := todo.pomodoroDuration.getD 0 - elapsed
  if remaining ≤ 0 && truthyNum todo.pomodoroDuration then
    if truthyBool todo.pomodoroIsBreak then
      { todo with
        pomodoroStartTime := none
        pomodoroDuration := none
        pomodoroPaused := none
        pomodoroTimeRemaining := none
        pomodoroIsBreak := none }
    else
      let currentCount := todo.pomodoroCount.getD 0
      let isLongBreak := currentCount == 3
      let breakDuration : Int := if isLongBreak then 15 * 60 * 1000 else 5 * 60 * 1000
      let newCount := if isLongBreak then 0 else currentCount + 1
      { todo with
        pomodoroStartTime := some nowMs
        pomodoroDuration := some breakDuration
        pomodoroPaused := some false
        pomodoroTimeRemaining := none
        pomodoroIsBreak := some true
        pomodoroCount := some newCount }
  else todo
else todo

/-- The timer-completion effect over the whole collection (tasks have
distinct identifiers, so the per-expired-task `setTodos` calls of the
source compose into one map). -/
def timerTick (currentTime nowMs : Int) (todos : List Todo) : List Todo :=
todos.map (tickUpd currentTime nowMs)

/-! ## `JSON.parse` and import (`importFromJSON` in `useTodos`)

`importFromJSON` runs `JSON.parse(jsonString) as Todo[]` inside
`try`/`catch`.  The cast is erased at runtime, so the store receives the
parsed value whatever its shape; we therefore model `JSON.parse` itself and
let the import state be the untyped runtime value of the collection. -/

/-- A JavaScript value produced by `JSON.parse`.  Number literals keep their
source text (their numeric value plays no role in the store). -/
inductive JsValue where
| null
| bool (b : Bool)
| num (lit : String)
| str (s : String)
| arr (elems : List JsValue)
| obj (fields : List (String × JsValue))

/-- Skip JSON whitespace. -/
def skipWs : List Char → List Char
| ' ' :: rest => skipWs rest
| '\t' :: rest => skipWs rest
| '\n' :: rest => skipWs rest
| '\r' :: rest => skipWs rest
| cs => cs

/-- Hexadecimal digit value. -/
def hexVal (c : Char) : Option Nat :=
if '0' ≤ c ∧ c ≤ '9' then some (c.toNat - '0'.toNat)
else if 'a' ≤ c ∧ c ≤ 'f' then some (c.toNat - 'a'.toNat + 10)
else if 'A' ≤ c ∧ c ≤ 'F' then some (c.toNat - 'A'.toNat + 10)
else none

/-- Parse the remainder of a JSON string literal (after the opening quote):
contents so far are accumulated in reverse in `acc`. -/
def parseStrBody (acc : List Char) : List Char → Option (String × List Char)
| '"' :: rest => some (String.mk acc.reverse, rest)
| '\\' :: esc =>
  match esc with
  | '"' :: rest => parseStrBody ('"' :: acc) rest
  | '\\' :: rest => parseStrBody ('\\' :: acc) rest
  | '/' :: rest => parseStrBody ('/' :: acc) rest
  | 'b' :: rest => parseStrBody ('\x08' :: acc) rest
  | 'f' :: rest => parseStrBody ('\x0c' :: acc) rest
  | 'n' :: rest => parseStrBody ('\n' :: acc) rest
  | 'r' :: rest => parseStrBody ('\r' :: acc) rest
  | 't' :: rest => parseStrBody ('\t' :: acc) rest
  | 'u' :: h1 :: h2 :: h3 :: h4 :: rest =>
    match hexVal h1, hexVal h2, hexVal h3, hexVal h4 with
    | some a, some b, some c, some d =>
      parseStrBody (Char.ofNat (((a * 16 + b) * 16 + c) * 16 + d) :: acc) rest
    | _, _, _, _ => none
  | _ => none
| c :: rest => if c.toNat < 32 then none else parseStrBody (c :: acc) rest
| [] => none

/-- Take a maximal run of decimal digits. -/
def takeDigits : List Char → List Char × List Char
| c :: rest =>
  if c.isDigit then
    let p := takeDigits rest
    (c :: p.1, p.2)
  else ([], c :: rest)
| [] => ([], [])

/-- Parse a JSON exponent part after the `e`/`E` marker. -/
def parseExpPart (e : Char) (cs : List Char) : Option (List Char × List Char) :=
let p := match cs with
  | '+' :: rest => (['+'], rest)
  | '-' :: rest => (['-'], rest)
  | _ => (([] : List Char), cs)
let q := takeDigits p.2
if q.1.isEmpty then none else some (e :: p.1 ++ q.1, q.2)

/-- Parse a JSON number literal, keeping its source text. -/
def parseNumLit (cs : List Char) : Option (String × List Char) := do
let sp := match cs with
  | '-' :: rest => ("-", rest)
  | _ => ("", cs)
let ip := takeDigits sp.2
if ip.1.isEmpty then none
else if ip.1.length > 1 && ip.1.head? == some '0' then none
else do
  let fp ← match ip.2 with
    | '.' :: rest =>
      let ds := takeDigits rest
      if ds.1.isEmpty then none else some ('.' :: ds.1, ds.2)
    | _ => some (([] : List Char), ip.2)
  let ep ← match fp.2 with
    | 'e' :: rest => parseExpPart 'e' rest
    | 'E' :: rest => parseExpPart 'E' rest
    | _ => some (([] : List Char), fp.2)
  some (sp.1 ++ String.mk ip.1 ++ String.mk fp.1 ++ String.mk ep.1, ep.2)

/-- Parser mode: a single value, the element loop of an array, or the
member loop of an object. -/
inductive PMode where
| val
| arrElems (acc : List JsValue)
| objMembers (acc : List (String × JsValue))

/-- Fuel-indexed recursive-descent JSON parser. -/
def parseJ : Nat → PMode → List Char → Option (JsValue × List Char)
| 0, _, _ => none
| Nat.succ fuel, PMode.val, cs =>
  match skipWs cs with
  | 'n' :: 'u' :: 'l' :: 'l' :: rest => some (JsValue.null, rest)
  | 't' :: 'r' :: 'u' :: 'e' :: rest => some (JsValue.bool true, rest)
  | 'f' :: 'a' :: 'l' :: 's' :: 'e' :: rest => some (JsValue.bool false, rest)
  | '"' :: rest =>
    match parseStrBody [] rest with
    | some (s, r) => some (JsValue.str s, r)
    | none => none
  | '[' :: rest =>
    match skipWs rest with
    | ']' :: r2 => some (JsValue.arr [], r2)
    | _ => parseJ fuel (PMode.arrElems []) rest
  | '{' :: rest =>
    match skipWs rest with
    | '}' :: r2 => some (JsValue.obj [], r2)
    | _ => parseJ fuel (PMode.objMembers []) rest
  | rest =>
    match parseNumLit rest with
    | some (lit, r) => some (JsValue.num lit, r)
    | none => none
| Nat.succ fuel, PMode.arrElems acc, cs =>
  match parseJ fuel PMode.val cs with
  | some (v, rest) =>
    match skipWs rest with
    | ',' :: r2 => parseJ fuel (PMode.arrElems (acc ++ [v])) r2
    | ']' :: r2 => some (JsValue.arr (acc ++ [v]), r2)
    | _ => none
  | none => none
| Nat.succ fuel, PMode.objMembers acc, cs =>
  match skipWs cs with
  | '"' :: rest =>
    match parseStrBody [] rest with
    | some (k, r1) =>
      match skipWs r1 with
      | ':' :: r2 =>
        match parseJ fuel PMode.val r2 with
        | some (v, r3) =>
          match skipWs r3 with
          | ',' :: r4 => parseJ fuel (PMode.objMembers (acc ++ [(k, v)])) r4
          | '}' :: r4 => some (JsValue.obj (acc ++ [(k, v)]), r4)
          | _ => none
        | none => none
      | _ => none
    | none => none
  | _ => none

/-- Embeds `JSON.parse`: parse one value, then allow only trailing whitespace. -/
def jsonParse (s : String) : Option JsValue :=
match parseJ (2 * s.length + 2) PMode.val s.toList with
| some (v, rest) => if (skipWs rest).isEmpty then some v else none
| none => none

/-- Embeds `importFromJSON(jsonString)` of `useTodos`: `JSON.parse` inside
`try`/`catch`; on success `setTodos` receives the parsed value unvalidated
(the `as Todo[]` cast performs no runtime check) and the call returns
`true`; on a parse exception it returns `false` and the state is left
untouched. -/
def importFromJSON (jsonString : String) (todos : JsValue) : Bool × JsValue :=
match jsonParse jsonString with
| some imported => (true, imported)
| none => (false, todos)

/-- Following the specification's words: an object carrying the required
`Todo` fields of the data model (identity, text, completion flag, creation
timestamp). -/
def isTodoObjectShape (v : JsValue) : Bool :=
match v with
| JsValue.obj fields =>
  (fields.find? (fun p => p.1 == "id")).isSome
  && (fields.find? (fun p => p.1 == "text")).isSome
  && (fields.find? (fun p => p.1 == "completed")).isSome
  && (fields.find? (fun p => p.1 == "createdAt")).isSome
| _ => false

/-- Following the specification's words ("parses the input as a task-list
payload; on parse or shape failure, returns failure"): a runtime value has
task-array shape when it is an array of task-shaped objects. -/
def specTaskArrayShape (v : JsValue) : Bool :=
match v with
| JsValue.arr elems => elems.all isTodoObjectShape
| _ => false

/-! ## Completion/timestamp consistency and reachable store states -/

/-- The claimed invariant: a task is incomplete exactly when it has no
completion timestamp. -/
def completionConsistent (t : Todo) : Prop :=
t.completed = false ↔ t.completedAt = none

instance : DecidablePred completionConsistent := fun t => by
unfold completionConsistent; infer_instance

/-- Store states reachable from the empty collection by the store's
operations. -/
inductive Reachable : StoreState → Prop where
| empty : Reachable ⟨[], none, false⟩
| create (text : String) (dueDate : Option String) (priority : Option Priority)
    (category : Option String) (recurring : Option RecurringType)
    (tags : Option (List String)) (timeEstimate : Option Int)
    (nowMs : Int) (nowISO todayStr : String) (st : StoreState) :
    Reachable st → Reachable { st with todos := (addTodo text dueDate priority
      category recurring tags timeEstimate nowMs nowISO todayStr st.todos) }
| toggle (id idOffset nowMs : Int) (nowISO : String) (st : StoreState) :
    Reachable st →
    Reachable { st with todos := toggleTodo id idOffset nowMs nowISO st.todos }
| delete (id : Int) (st : StoreState) :
    Reachable st → Reachable (deleteTodo id st)
| undo (st : StoreState) :
    Reachable st → Reachable (undoDelete st)
| dismiss (st : StoreState) :
    Reachable st → Reachable (dismissUndoToast st)
| timeout (st : StoreState) :
    Reachable st → Reachable (undoTimeoutFire st)
| restore (id : Int) (st : StoreState) :
    Reachable st → Reachable { st with todos := restoreTodo id st.todos }
| edit (id : Int) (editText : String) (st : StoreState) :
    Reachable st → Reachable { st with todos := saveEdit id editText st.todos }
| notes (id : Int) (notesInput : String) (st : StoreState) :
    Reachable st → Reachable { st with todos := saveNotes id notesInput st.todos }
| subtaskAdd (todoId : Int) (rawText : Option String) (nowMs : Int) (st : StoreState) :
    Reachable st →
    Reachable { st with todos := addSubtask todoId rawText nowMs st.todos }
| subtaskToggle (todoId subtaskId : Int) (st : StoreState) :
    Reachable st →
    Reachable { st with todos := toggleSubtask todoId subtaskId st.todos }
| subtaskDelete (todoId subtaskId : Int) (st : StoreState) :
    Reachable st →
    Reachable { st with todos := deleteSubtask todoId subtaskId st.todos }
| tagAdd (todoId : Int) (rawInput : Option String) (st : StoreState) :
    Reachable st →
    Reachable { st with todos := addTagToTask todoId rawInput st.todos }
| tagRemove (todoId : Int) (tag : String) (st : StoreState) :
    Reachable st →
    Reachable { st with todos := removeTagFromTask todoId tag st.todos }
| estimate (todoId : Int) (minutes : Option Int) (st : StoreState) :
    Reachable st →
    Reachable { st with todos := updateTimeEstimate todoId minutes st.todos }
| reorder (draggedId targetId : Int) (st : StoreState) :
    Reachable st →
    Reachable { st with todos := handleDragOver draggedId targetId st.todos }
| pomStart (id nowMs : Int) (st : StoreState) :
    Reachable st → Reachable { st with todos := startPomodoro id nowMs st.todos }
| pomPause (id nowMs : Int) (st : StoreState) :
    Reachable st → Reachable { st with todos := pausePomodoro id nowMs st.todos }
| pomResume (id nowMs : Int) (st : StoreState) :
    Reachable st → Reachable { st with todos := resumePomodoro id nowMs st.todos }
| pomReset (id : Int) (st : StoreState) :
    Reachable st → Reachable { st with todos := resetPomodoro id st.todos }
| tick (currentTime nowMs : Int) (st : StoreState) :
    Reachable st →
    Reachable { st with todos := timerTick currentTime nowMs st.todos }
| clearCompleted (st : StoreState) :
    Reachable st → Reachable { st with todos := clearAllCompleted st.todos }

/-- Strengthened induction invariant: every task in the collection and any
buffered deleted task is completion-consistent. -/
def stateConsistent (st : StoreState) : Prop :=
(∀ t ∈ st.todos, completionConsistent t) ∧
(∀ t, st.deletedTodo = some t → completionConsistent t)

/-! ### List helper lemmas -/

theorem mem_insertIdx_or {α : Type _} (b a : α) :
    ∀ (n : Nat) (l : List α), a ∈ l.insertIdx n b → a = b ∨ a ∈ l := by
intro n
induction n with
| zero => intro l h; rw [List.insertIdx_zero] at h; simpa using h
| succ n ih =>
  intro l h
  cases l with
  | nil => simp [List.insertIdx_succ_nil] at h
  | cons x xs =>
    rw [List.insertIdx_succ_cons] at h
    rcases List.mem_cons.mp h with rfl | h2
    · exact Or.inr (List.mem_cons_self _ _)
    · rcases ih xs h2 with h3 | h3
      · exact Or.inl h3
      · exact Or.inr (List.mem_cons_of_mem _ h3)

theorem mem_of_mem_eraseIdx {α : Type _} (a : α) :
    ∀ (l : List α) (n : Nat), a ∈ l.eraseIdx n → a ∈ l := by
intro l
induction l with
| nil => intro n h; simp [List.eraseIdx] at h
| cons x xs ih =>
  intro n h
  cases n with
  | zero => exact List.mem_cons_of_mem _ (by simpa [List.eraseIdx] using h)
  | succ n =>
    rw [List.eraseIdx_cons_succ] at h
    rcases List.mem_cons.mp h with rfl | h2
    · exact List.mem_cons_self _ _
    · exact List.mem_cons_of_mem _ (ih n h2)

theorem snd_mem_of_mem_enum {α : Type _} {p : Nat × α} {l : List α}
    (h : p ∈ l.enum) : p.2 ∈ l := by
have := List.mem_enum_iff_getElem?.mp h
exact List.getElem?_mem this

theorem map_eq_self_of_mem {α : Type _} {f : α → α} {l : List α}
    (h : ∀ x ∈ l, f x = x) : l.map f = l := by
induction l with
| nil => rfl
| cons x xs ih =>
  simp only [List.map_cons, h x (List.mem_cons_self _ _),
    ih (fun y hy => h y (List.mem_cons_of_mem _ hy))]

/-! ### Per-operation preservation of completion consistency -/

theorem map_frame_consistent {f : Todo → Todo}
    (h1 : ∀ t, (f t).completed = t.completed)
    (h2 : ∀ t, (f t).completedAt = t.completedAt)
    {l : List Todo} (hl : ∀ t ∈ l, completionConsistent t) :
    ∀ t ∈ l.map f, completionConsistent t := by
intro t ht
rcases List.mem_map.mp ht with ⟨a, ha, rfl⟩
unfold completionConsistent
rw [h1, h2]
exact hl a ha

theorem addTodo_consistent {l : List Todo} (hl : ∀ t ∈ l, completionConsistent t)
    (text : String) (dueDate : Option String) (priority : Option Priority)
    (category : Option String) (recurring : Option RecurringType)
    (tags : Option (List String)) (timeEstimate : Option Int)
    (nowMs : Int) (nowISO todayStr : String) :
    ∀ t ∈ addTodo text dueDate priority category recurring tags timeEstimate
      nowMs nowISO todayStr l, completionConsistent t := by
unfold addTodo
split
· exact hl
· intro t ht
  simp only [List.mem_append, List.mem_singleton] at ht
  rcases ht with h | rfl
  · exact hl t h
  · simp [completionConsistent]

theorem toggleTodo_consistent {l : List Todo} (hl : ∀ t ∈ l, completionConsistent t)
    (id idOffset nowMs : Int) (nowISO : String) :
    ∀ t ∈ toggleTodo id idOffset nowMs nowISO l, completionConsistent t := by
unfold toggleTodo
split
· exact hl
· split
  · intro t ht
    simp only [List.mem_append, List.mem_singleton] at ht
    rcases ht with h | rfl
    · rcases List.mem_map.mp h with ⟨a, ha, rfl⟩
      unfold markCompletedUpd
      split
      · simp [completionConsistent]
      · exact hl a ha
    · simp [completionConsistent, spawnRecurringTodo]
  · intro t ht
    rcases List.mem_map.mp ht with ⟨a, ha, rfl⟩
    unfold plainToggleUpd
    split
    · cases h : a.completed <;> simp [completionConsistent, h]
    · exact hl a ha

theorem restoreTodo_consistent {l : List Todo} (hl : ∀ t ∈ l, completionConsistent t)
    (id : Int) : ∀ t ∈ restoreTodo id l, completionConsistent t := by
unfold restoreTodo
intro t ht
rcases List.mem_map.mp ht with ⟨a, ha, rfl⟩
split
· simp [completionConsistent]
· exact hl a ha

theorem saveEdit_consistent {l : List Todo} (hl : ∀ t ∈ l, completionConsistent t)
    (id : Int) (editText : String) :
    ∀ t ∈ saveEdit id editText l, completionConsistent t := by
unfold saveEdit
split
· exact hl
· refine map_frame_consistent (fun t => ?_) (fun t => ?_) hl <;>
  · try dsimp only
    split <;> rfl

theorem saveNotes_consistent {l : List Todo} (hl : ∀ t ∈ l, completionConsistent t)
    (id : Int) (notesInput : String) :
    ∀ t ∈ saveNotes id notesInput l, completionConsistent t := by
unfold saveNotes
refine map_frame_consistent (fun t => ?_) (fun t => ?_) hl <;>
· try dsimp only
  split <;> rfl

theorem addSubtask_consistent {l : List Todo} (hl : ∀ t ∈ l, completionConsistent t)
    (todoId : Int) (rawText : Option String) (nowMs : Int) :
    ∀ t ∈ addSubtask todoId rawText nowMs l, completionConsistent t := by
unfold addSubtask
split
· exact hl
· refine map_frame_consistent (fun t => ?_) (fun t => ?_) hl <;>
  · try dsimp only
    split <;> rfl

theorem toggleSubtask_consistent {l : List Todo} (hl : ∀ t ∈ l, completionConsistent t)
    (todoId subtaskId : Int) :
    ∀ t ∈ toggleSubtask todoId subtaskId l, completionConsistent t := by
unfold toggleSubtask
refine map_frame_consistent (fun t => ?_) (fun t => ?_) hl <;>
· try dsimp only
  split <;> rfl

theorem deleteSubtask_consistent {l : List Todo} (hl : ∀ t ∈ l, completionConsistent t)
    (todoId subtaskId : Int) :
    ∀ t ∈ deleteSubtask todoId subtaskId l, completionConsistent t := by
unfold deleteSubtask
refine map_frame_consistent (fun t => ?_) (fun t => ?_) hl <;>
· try dsimp only
  split <;> rfl

theorem addTagToTask_consistent {l : List Todo} (hl : ∀ t ∈ l, completionConsistent t)
    (todoId : Int) (rawInput : Option String) :
    ∀ t ∈ addTagToTask todoId rawInput l, completionConsistent t := by
unfold addTagToTask
split
· exact hl
· refine map_frame_consistent (fun t => ?_) (fun t => ?_) hl <;>
  · try dsimp only
    split <;> rfl

theorem removeTagFromTask_consistent {l : List Todo} (hl : ∀ t ∈ l, completionConsistent t)
    (todoId : Int) (tag : String) :
    ∀ t ∈ removeTagFromTask todoId tag l, completionConsistent t := by
unfold removeTagFromTask
refine map_frame_consistent (fun t => ?_) (fun t => ?_) hl <;>
· try dsimp only
  split <;> rfl

theorem updateTimeEstimate_consistent {l : List Todo} (hl : ∀ t ∈ l, completionConsistent t)
    (todoId : Int) (minutes : Option Int) :
    ∀ t ∈ updateTimeEstimate todoId minutes l, completionConsistent t := by
unfold updateTimeEstimate
refine map_frame_consistent (fun t => ?_) (fun t => ?_) hl <;>
· try dsimp only
  split <;> rfl

theorem startPomodoro_consistent {l : List Todo} (hl : ∀ t ∈ l, completionConsistent t)
    (id nowMs : Int) : ∀ t ∈ startPomodoro id nowMs l, completionConsistent t := by
unfold startPomodoro
refine map_frame_consistent (fun t => ?_) (fun t => ?_) hl <;>
· unfold startPomodoroUpd
  split <;> rfl

theorem pausePomodoro_consistent {l : List Todo} (hl : ∀ t ∈ l, completionConsistent t)
    (id nowMs : Int) : ∀ t ∈ pausePomodoro id nowMs l, completionConsistent t := by
unfold pausePomodoro
refine map_frame_consistent (fun t => ?_) (fun t => ?_) hl <;>
· unfold pausePomodoroUpd
  split <;> rfl

theorem resumePomodoro_consistent {l : List Todo} (hl : ∀ t ∈ l, completionConsistent t)
    (id nowMs : Int) : ∀ t ∈ resumePomodoro id nowMs l, completionConsistent t := by
unfold resumePomodoro
refine map_frame_consistent (fun t => ?_) (fun t => ?_) hl <;>
· unfold resumePomodoroUpd
  split <;> rfl

theorem resetPomodoro_consistent {l : List Todo} (hl : ∀ t ∈ l, completionConsistent t)
    (id : Int) : ∀ t ∈ resetPomodoro id l, completionConsistent t := by
unfold resetPomodoro
refine map_frame_consistent (fun t => ?_) (fun t => ?_) hl <;>
· unfold resetPomodoroUpd
  split <;> rfl

theorem timerTick_consistent {l : List Todo} (hl : ∀ t ∈ l, completionConsistent t)
    (currentTime nowMs : Int) :
    ∀ t ∈ timerTick currentTime nowMs l, completionConsistent t := by
unfold timerTick
refine map_frame_consistent (fun t => ?_) (fun t => ?_) hl <;>
· unfold tickUpd
  repeat' (first | split | dsimp only)

theorem clearAllCompleted_consistent {l : List Todo} (hl : ∀ t ∈ l, completionConsistent t) :
    ∀ t ∈ clearAllCompleted l, completionConsistent t := by
unfold clearAllCompleted
intro t ht
exact hl t (List.mem_of_mem_filter ht)

theorem handleDragOver_consistent {l : List Todo} (hl : ∀ t ∈ l, completionConsistent t)
    (draggedId targetId : Int) :
    ∀ t ∈ handleDragOver draggedId targetId l, completionConsistent t := by
unfold handleDragOver
split
· exact hl
· split
  · split
    · intro t ht
      rcases List.mem_map.mp ht with ⟨p, hp, rfl⟩
      have h2 := snd_mem_of_mem_enum hp
      have h3 := mem_insertIdx_or _ _ _ _ h2
      have h4 : completionConsistent p.2 := by
        rcases h3 with h3 | h3
        · rename_i draggedTodo heq
          subst h3
          exact hl _ (List.getElem?_mem (by simpa using heq))
        · exact hl _ (mem_of_mem_eraseIdx _ _ _ h3)
      simpa [completionConsistent] using h4
    · exact hl
  · exact hl

/-- Every reachable store state is completion-consistent, both in the
collection and in the undo buffer. -/
theorem reachable_stateConsistent {st : StoreState} (h : Reachable st) :
    stateConsistent st := by
induction h with
| empty => exact ⟨by simp, by simp⟩
| create text dueDate priority category recurring tags timeEstimate nowMs nowISO todayStr st _ ih =>
  exact ⟨addTodo_consistent ih.1 _ _ _ _ _ _ _ _ _ _, ih.2⟩
| toggle id idOffset nowMs nowISO st _ ih =>
  exact ⟨toggleTodo_consistent ih.1 _ _ _ _, ih.2⟩
| delete id st _ ih =>
  unfold deleteTodo
  split
  · exact ih
  · rename_i todoToDelete heq
    refine ⟨fun t ht => ih.1 t (List.mem_of_mem_filter ht), fun t ht => ?_⟩
    simp only [Option.some.injEq] at ht
    subst ht
    exact ih.1 _ (List.mem_of_find?_eq_some heq)
| undo st _ ih =>
  unfold undoDelete
  split
  · rename_i t heq
    refine ⟨fun x hx => ?_, fun x hx => by simp at hx⟩
    simp only [List.mem_append, List.mem_singleton] at hx
    rcases hx with h | rfl
    · exact ih.1 x h
    · exact ih.2 _ heq
  · exact ih
| dismiss st _ ih =>
  exact ⟨ih.1, fun t ht => by simp [dismissUndoToast] at ht⟩
| timeout st _ ih =>
  exact ⟨ih.1, fun t ht => by simp [undoTimeoutFire] at ht⟩
| restore id st _ ih => exact ⟨restoreTodo_consistent ih.1 _, ih.2⟩
| edit id editText st _ ih => exact ⟨saveEdit_consistent ih.1 _ _, ih.2⟩
| notes id notesInput st _ ih => exact ⟨saveNotes_consistent ih.1 _ _, ih.2⟩
| subtaskAdd todoId rawText nowMs st _ ih =>
  exact ⟨addSubtask_consistent ih.1 _ _ _, ih.2⟩
| subtaskToggle todoId subtaskId st _ ih =>
  exact ⟨toggleSubtask_consistent ih.1 _ _, ih.2⟩
| subtaskDelete todoId subtaskId st _ ih =>
  exact ⟨deleteSubtask_consistent ih.1 _ _, ih.2⟩
| tagAdd todoId rawInput st _ ih =>
  exact ⟨addTagToTask_consistent ih.1 _ _, ih.2⟩
| tagRemove todoId tag st _ ih =>
  exact ⟨removeTagFromTask_consistent ih.1 _ _, ih.2⟩
| estimate todoId minutes st _ ih =>
  exact ⟨updateTimeEstimate_consistent ih.1 _ _, ih.2⟩
| reorder draggedId targetId st _ ih =>
  exact ⟨handleDragOver_consistent ih.1 _ _, ih.2⟩
| pomStart id nowMs st _ ih => exact ⟨startPomodoro_consistent ih.1 _ _, ih.2⟩
| pomPause id nowMs st _ ih => exact ⟨pausePomodoro_consistent ih.1 _ _, ih.2⟩
| pomResume id nowMs st _ ih => exact ⟨resumePomodoro_consistent ih.1 _ _, ih.2⟩
| pomReset id st _ ih => exact ⟨resetPomodoro_consistent ih.1 _, ih.2⟩
| tick currentTime nowMs st _ ih => exact ⟨timerTick_consistent ih.1 _ _, ih.2⟩
| clearCompleted st _ ih => exact ⟨clearAllCompleted_consistent ih.1, ih.2⟩

/-! ## Claims -/

/-- C3: In every store state reachable from the empty collection by the
store's operations (create, toggle-complete, restore, edit, delete/undo,
subtask and tag operations, reorder, pomodoro operations and the timer
tick), every task satisfies: `completed = false` if and only if
`completedAt` is absent. -/
theorem c3_completion_invariant {st : StoreState} (h : Reachable st) :
    ∀ t ∈ st.todos, t.completed = false ↔ t.completedAt = none :=
fun t ht => (reachable_stateConsistent h).1 t ht

/-- The task `create` appends to the empty collection in the C3 witness. -/
def c3WitnessTodo : Todo :=
{ id := 5, text := "buy milk", completed := false,
  createdAt := "2024-01-01T10:00:00.000Z", dueDate := some "2024-01-05",
  order := some 1 }

/-- Witness for C3 at the reachable one-task state created by `addTodo`. -/
theorem c3_witness :
    c3WitnessTodo.completed = false ↔ c3WitnessTodo.completedAt = none :=
c3_completion_invariant
  (Reachable.create "buy milk" (some "2024-01-05") none none none none none 5
    "2024-01-01T10:00:00.000Z" "2024-01-01" ⟨[], none, false⟩ Reachable.empty)
  c3WitnessTodo (by decide)

/-- The fourteen non-pomodoro fields of a task agree between `a` and `b`. -/
def samePlainFields (a b : Todo) : Prop :=
b.id = a.id ∧ b.text = a.text ∧ b.completed = a.completed ∧
b.completedAt = a.completedAt ∧ b.createdAt = a.createdAt ∧
b.dueDate = a.dueDate ∧ b.priority = a.priority ∧ b.order = a.order ∧
b.category = a.category ∧ b.subtasks = a.subtasks ∧ b.recurring = a.recurring ∧
b.notes = a.notes ∧ b.tags = a.tags ∧ b.timeEstimate = a.timeEstimate

instance (a b : Todo) : Decidable (samePlainFields a b) := by
unfold samePlainFields; infer_instance

/-- C10: each pomodoro operation is a per-task map; a task whose identifier
differs from the addressed one is left completely unchanged, and on every
task (the addressed one included) only the six pomodoro fields can change —
the fourteen other fields are preserved. -/
theorem c10_pomodoro_frame (id nowMs : Int) (todos : List Todo) :
    (startPomodoro id nowMs todos = todos.map (startPomodoroUpd id nowMs) ∧
     pausePomodoro id nowMs todos = todos.map (pausePomodoroUpd id nowMs) ∧
     resumePomodoro id nowMs todos = todos.map (resumePomodoroUpd id nowMs) ∧
     resetPomodoro id todos = todos.map (resetPomodoroUpd id)) ∧
    (∀ t : Todo, t.id ≠ id →
      startPomodoroUpd id nowMs t = t ∧ pausePomodoroUpd id nowMs t = t ∧
      resumePomodoroUpd id nowMs t = t ∧ resetPomodoroUpd id t = t) ∧
    (∀ t : Todo,
      samePlainFields t (startPomodoroUpd id nowMs t) ∧
      samePlainFields t (pausePomodoroUpd id nowMs t) ∧
      samePlainFields t (resumePomodoroUpd id nowMs t) ∧
      samePlainFields t (resetPomodoroUpd id t)) := by
refine ⟨⟨rfl, rfl, rfl, rfl⟩, fun t ht => ?_, fun t => ?_⟩
· have hbe : (t.id == id) = false := by simpa using ht
  unfold startPomodoroUpd pausePomodoroUpd resumePomodoroUpd resetPomodoroUpd
  simp [hbe]
· unfold startPomodoroUpd pausePomodoroUpd resumePomodoroUpd resetPomodoroUpd
  refine ⟨?_, ?_, ?_, ?_⟩ <;>
  · split <;> simp [samePlainFields]

/-- A task not addressed by the C10 witness operations. -/
def c10Todo : Todo := { id := 2, text := "x", completed := false, createdAt := "c" }

/-- Witness for C10: a task with a different identifier is untouched. -/
theorem c10_witness :
    startPomodoroUpd 1 50 c10Todo = c10Todo ∧
    pausePomodoroUpd 1 50 c10Todo = c10Todo ∧
    resumePomodoroUpd 1 50 c10Todo = c10Todo ∧
    resetPomodoroUpd 1 c10Todo = c10Todo :=
(c10_pomodoro_frame 1 50 []).2.1 c10Todo (by decide)

/-- C4: on the addressed task, `startPomodoro` sets start = now, duration =
1,500,000 ms, paused = false, isBreak = false, clears the remaining-time
snapshot and keeps the existing count (0 if absent); `pausePomodoro` on a
running timer with `0 < now − start < duration` sets paused = true and
captures `timeRemaining = duration − (now − start)`, strictly between 0 and
the original duration; `resumePomodoro` on a paused timer sets start = now,
duration = the snapshot, paused = false and clears the snapshot;
`resetPomodoro` clears all five pomodoro session fields and zeroes the
count. -/
theorem c4_pomodoro_ops (id nowMs : Int) (t : Todo) (hid : t.id = id) :
    (startPomodoroUpd id nowMs t = { t with
        pomodoroStartTime := some nowMs, pomodoroDuration := some 1500000,
        pomodoroPaused := some false, pomodoroTimeRemaining := none,
        pomodoroIsBreak := some false,
        pomodoroCount := some (t.pomodoroCount.getD 0) }) ∧
    (∀ s dur : Int, t.pomodoroStartTime = some s → s ≠ 0 →
      t.pomodoroDuration = some dur → 0 < nowMs - s → nowMs - s < dur →
      pausePomodoroUpd id nowMs t = { t with
        pomodoroPaused := some true,
        pomodoroTimeRemaining := some (dur - (nowMs - s)) } ∧
      0 < dur - (nowMs - s) ∧ dur - (nowMs - s) < dur) ∧
    (∀ r : Int, t.pomodoroPaused = some true → t.pomodoroTimeRemaining = some r →
      resumePomodoroUpd id nowMs t = { t with
        pomodoroStartTime := some nowMs, pomodoroDuration := some r,
        pomodoroPaused := some false, pomodoroTimeRemaining := none }) ∧
    (resetPomodoroUpd id t = { t with
        pomodoroStartTime := none, pomodoroDuration := none,
        pomodoroPaused := none, pomodoroTimeRemaining := none,
        pomodoroIsBreak := none, pomodoroCount := some 0 }) := by
have hbe : (t.id == id) = true := by simpa using hid
refine ⟨?_, ?_, ?_, ?_⟩
· unfold startPomodoroUpd
  rw [if_pos hbe]
  norm_num
· intro s dur hs hs0 hd h1 h2
  unfold pausePomodoroUpd
  have hguard : (t.id == id && truthyNum t.pomodoroStartTime) = true := by
    simp [hbe, hs, truthyNum, hs0]
  rw [if_pos hguard]
  refine ⟨?_, by omega, by omega⟩
  simp [hs, hd]
· intro r hp hr
  unfold resumePomodoroUpd
  have hguard : (t.id == id && truthyBool t.pomodoroPaused) = true := by
    simp [hbe, hp, truthyBool]
  rw [if_pos hguard, hr]
· unfold resetPomodoroUpd
  rw [if_pos hbe]

/-- A task with a running-then-paused timer for the C4 witness. -/
def c4Todo : Todo :=
{ id := 3, text := "w", completed := false, createdAt := "c",
  pomodoroStartTime := some 10, pomodoroDuration := some 100,
  pomodoroPaused := some true, pomodoroTimeRemaining := some 40 }

/-- Witness for C4: pausing the witness timer at instant 60 captures a
remaining time strictly between 0 and the duration. -/
theorem c4_witness :
    pausePomodoroUpd 3 60 c4Todo = { c4Todo with
      pomodoroPaused := some true,
      pomodoroTimeRemaining := some (100 - (60 - 10)) } ∧
    (0:Int) < 100 - (60 - 10) ∧ (100:Int) - (60 - 10) < 100 :=
(c4_pomodoro_ops 3 60 c4Todo rfl).2.1 10 100 rfl (by decide) rfl
  (by decide) (by decide)

/-- A break timer with one completed focus session, for the C5
counterexample. -/
def c5BreakTodo : Todo :=
{ id := 1, text := "b", completed := false, createdAt := "c",
  pomodoroStartTime := some 1, pomodoroDuration := some 5,
  pomodoroIsBreak := some true, pomodoroCount := some 1 }

/-- C5 counterexample: when an expired break timer is processed by the tick
(the session fields are indeed cleared), the task does **not** have all
pomodoro fields cleared — `pomodoroCount` survives with its old value. -/
theorem c5_cex_break_keeps_count :
    (tickUpd 10 10 c5BreakTodo).pomodoroStartTime = none ∧
    (tickUpd 10 10 c5BreakTodo).pomodoroIsBreak = none ∧
    (tickUpd 10 10 c5BreakTodo).pomodoroCount = some 1 := by decide

/-- C5 (amended): on a tick at time `now`, a task with an active, unpaused,
expired timer (`now − start ≥ duration`) of a non-completed task
transitions: a break returns the task to idle clearing the five session
fields (start, duration, paused, timeRemaining, isBreak) while
`pomodoroCount` is preserved; a focus session with count 3 enters a running
15-minute (900,000 ms) break with count reset to 0; a focus session with
count below 3 enters a running 5-minute (300,000 ms) break with the count
incremented. -/
theorem c5_tick_transitions (currentTime nowMs : Int) (t : Todo)
    (s : Int) (hs : t.pomodoroStartTime = some s) (hs0 : s ≠ 0)
    (dur : Int) (hd : t.pomodoroDuration = some dur) (hd0 : dur ≠ 0)
    (hp : t.pomodoroPaused ≠ some true)
    (hc : t.completed = false)
    (hexp : dur ≤ currentTime - s) :
    (t.pomodoroIsBreak = some true →
      tickUpd currentTime nowMs t = { t with
        pomodoroStartTime := none, pomodoroDuration := none,
        pomodoroPaused := none, pomodoroTimeRemaining := none,
        pomodoroIsBreak := none }) ∧
    (t.pomodoroIsBreak ≠ some true →
      (t.pomodoroCount = some 3 →
        tickUpd currentTime nowMs t = { t with
          pomodoroStartTime := some nowMs, pomodoroDuration := some 900000,
          pomodoroPaused := some false, pomodoroTimeRemaining := none,
          pomodoroIsBreak := some true, pomodoroCount := some 0 }) ∧
      (t.pomodoroCount.getD 0 < 3 →
        tickUpd currentTime nowMs t = { t with
          pomodoroStartTime := some nowMs, pomodoroDuration := some 300000,
          pomodoroPaused := some false, pomodoroTimeRemaining := none,
          pomodoroIsBreak := some true,
          pomodoroCount := some (t.pomodoroCount.getD 0 + 1) })) := by
have hpb : truthyBool t.pomodoroPaused = false := by
  cases hpp : t.pomodoroPaused with
  | none => rfl
  | some b =>
    cases b with
    | false => rfl
    | true => exact absurd hpp hp
have h1 : truthyNum t.pomodoroStartTime = true := by
  rw [hs]; simp [truthyNum, hs0]
have h2 : truthyNum t.pomodoroDuration = true := by
  rw [hd]; simp [truthyNum, hd0]
have hcond1 : (truthyNum t.pomodoroStartTime && !truthyBool t.pomodoroPaused
    && !t.completed) = true := by
  rw [h1, hpb, hc]; rfl
have hcond2 : (decide (t.pomodoroDuration.getD 0
    - (currentTime - t.pomodoroStartTime.getD 0) ≤ 0)
    && truthyNum t.pomodoroDuration) = true := by
  rw [hs, hd]
  simp only [Option.getD_some, truthyNum, Bool.and_eq_true, decide_eq_true_eq,
    bne_iff_ne, ne_eq]
  exact ⟨by omega, hd0⟩
refine ⟨fun hib => ?_, fun hib => ⟨fun h3 => ?_, fun h3 => ?_⟩⟩
· unfold tickUpd
  rw [if_pos hcond1]
  dsimp only
  rw [if_pos hcond2, if_pos (show truthyBool t.pomodoroIsBreak = true by rw [hib]; rfl)]
· have hibf : truthyBool t.pomodoroIsBreak = false := by
    cases hbb : t.pomodoroIsBreak with
    | none => rfl
    | some b =>
      cases b with
      | false => rfl
      | true => exact absurd hbb hib
  unfold tickUpd
  rw [if_pos hcond1]
  dsimp only
  rw [if_pos hcond2, if_neg (by rw [hibf]; exact Bool.false_ne_true)]
  simp only [h3, Option.getD_some]
  norm_num
· have hibf : truthyBool t.pomodoroIsBreak = false := by
    cases hbb : t.pomodoroIsBreak with
    | none => rfl
    | some b =>
      cases b with
      | false => rfl
      | true => exact absurd hbb hib
  have hne : (t.pomodoroCount.getD 0 == 3) = false := by
    simp only [beq_eq_false_iff_ne, ne_eq]
    omega
  unfold tickUpd
  rw [if_pos hcond1]
  dsimp only
  rw [if_pos hcond2, if_neg (by rw [hibf]; exact Bool.false_ne_true)]
  rw [hne]
  norm_num

/-- A focus timer on its fourth session, for the C5 witness. -/
def c5FocusTodo : Todo :=
{ id := 4, text := "f", completed := false, createdAt := "c",
  pomodoroStartTime := some 2, pomodoroDuration := some 10,
  pomodoroPaused := some false, pomodoroIsBreak := some false,
  pomodoroCount := some 3 }

/-- Witness for C5: an expired fourth focus session enters a 15-minute
break with the count reset. -/
theorem c5_witness :
    tickUpd 20 20 c5FocusTodo = { c5FocusTodo with
      pomodoroStartTime := some 20, pomodoroDuration := some 900000,
      pomodoroPaused := some false, pomodoroTimeRemaining := none,
      pomodoroIsBreak := some true, pomodoroCount := some 0 } :=
((c5_tick_transitions 20 20 c5FocusTodo 2 rfl (by decide) 10 rfl (by decide)
  (by decide) rfl (by decide)).2 (by decide)).1 rfl

/-- An already-completed task whose completion timestamp toggling twice
does not restore, for the C9 counterexample. -/
def c9Todo : Todo :=
{ id := 1, text := "t", completed := true, createdAt := "c",
  completedAt := some "2024-01-01T00:00:00.000Z" }

/-- C9 counterexample: toggling an already-completed non-recurring task
twice does not return the list to its original state — `completedAt`
becomes the second toggle's timestamp instead of the original one. -/
theorem c9_cex_completedAt_not_restored :
    toggleTodo 1 0 0 "2024-02-02T00:00:00.000Z"
      (toggleTodo 1 0 0 "2024-02-01T00:00:00.000Z" [c9Todo]) ≠ [c9Todo] := by
decide

theorem plainToggleUpd_id (id : Int) (iso : String) (t : Todo) :
    (plainToggleUpd id iso t).id = t.id := by
unfold plainToggleUpd; split <;> rfl

theorem plainToggleUpd_recurring (id : Int) (iso : String) (t : Todo) :
    (plainToggleUpd id iso t).recurring = t.recurring := by
unfold plainToggleUpd; split <;> rfl

/-- On a collection whose tasks with the addressed identifier are
non-recurring, `toggleTodo` is the plain completion flip. -/
theorem toggleTodo_not_recurring (todos : List Todo) (id idOffset nowMs : Int)
    (iso : String) (hrec : ∀ t ∈ todos, t.id = id → t.recurring = none) :
    toggleTodo id idOffset nowMs iso todos = todos.map (plainToggleUpd id iso) := by
unfold toggleTodo
cases hfind : todos.find? (fun t => t.id == id) with
| none =>
  dsimp only
  have hall : ∀ x ∈ todos, plainToggleUpd id iso x = x := by
    intro x hx
    unfold plainToggleUpd
    rw [if_neg (List.find?_eq_none.mp hfind x hx)]
  rw [map_eq_self_of_mem hall]
| some todo =>
  dsimp only
  have hmem := List.mem_of_find?_eq_some hfind
  have hid : (todo.id == id) = true := by
    have := List.find?_some hfind
    simpa using this
  have hrn : todo.recurring = none := hrec todo hmem (by simpa using hid)
  rw [if_neg]
  simp [hrn]

/-- C9 (amended): toggling a non-recurring task twice restores its
`completed` flag and leaves every other task unchanged; `completedAt` ends
absent when the flag was `false` and ends as the *second* toggle's
timestamp when it was `true` — so the original `completedAt` state is
restored exactly when the task was initially incomplete with no
timestamp. -/
theorem c9_toggle_twice (todos : List Todo) (id off1 off2 n1 n2 : Int)
    (iso1 iso2 : String)
    (hrec : ∀ t ∈ todos, t.id = id → t.recurring = none) :
    toggleTodo id off2 n2 iso2 (toggleTodo id off1 n1 iso1 todos) =
      todos.map (fun t => if t.id = id
        then { t with completedAt := if t.completed then some iso2 else none }
        else t) := by
rw [toggleTodo_not_recurring todos id off1 n1 iso1 hrec]
rw [toggleTodo_not_recurring _ id off2 n2 iso2 ?hrec2]
case hrec2 =>
  intro t ht hid
  rcases List.mem_map.mp ht with ⟨a, ha, rfl⟩
  rw [plainToggleUpd_recurring]
  exact hrec a ha (by rw [plainToggleUpd_id] at hid; exact hid)
rw [List.map_map]
apply List.map_congr_left
intro t _
by_cases h : t.id = id
· have hb : (t.id == id) = true := by simpa using h
  cases hc : t.completed <;>
    simp [Function.comp, plainToggleUpd, hb, h, hc]
· have hb : (t.id == id) = false := by simpa using h
  simp [Function.comp, plainToggleUpd, hb, h]

/-- A one-element list with an incomplete non-recurring task, for the C9
witness. -/
def c9WitnessTodo : Todo := { id := 7, text := "w", completed := false, createdAt := "c" }

/-- Witness for C9 (amended): double-toggling an initially-incomplete task
restores it exactly. -/
theorem c9_witness :
    toggleTodo 7 0 0 "B" (toggleTodo 7 0 0 "A" [c9WitnessTodo]) = [c9WitnessTodo] := by
rw [c9_toggle_twice [c9WitnessTodo] 7 0 0 0 0 "A" "B" (by decide)]
decide

/-- C7: deleting a present task removes it from the collection and stores
it in the single-slot undo buffer (replacing any pending one — the
operation overwrites the slot and re-arms the timer whatever the prior
state); undoing before the grace timeout re-appends exactly that task at
the end and clears the buffer; once the grace timeout has fired, the
buffer is empty and a subsequent undo is a no-op. -/
theorem c7_delete_undo (st : StoreState) (id : Int) (todo : Todo)
    (hfind : st.todos.find? (fun t => t.id == id) = some todo) :
    (deleteTodo id st).todos = st.todos.filter (fun t => !(t.id == id)) ∧
    (deleteTodo id st).deletedTodo = some todo ∧
    (deleteTodo id st).showUndoToast = true ∧
    undoDelete (deleteTodo id st) =
      ⟨st.todos.filter (fun t => !(t.id == id)) ++ [todo], none, false⟩ ∧
    undoTimeoutFire (deleteTodo id st) =
      ⟨st.todos.filter (fun t => !(t.id == id)), none, false⟩ ∧
    undoDelete (undoTimeoutFire (deleteTodo id st)) =
      undoTimeoutFire (deleteTodo id st) := by
unfold deleteTodo undoDelete undoTimeoutFire
simp [hfind]

def c7Todo1 : Todo := { id := 1, text := "a", completed := false, createdAt := "c1" }

def c7Todo2 : Todo := { id := 2, text := "b", completed := false, createdAt := "c2" }

/-- Witness for C7: deleting task 1 then undoing re-appends it at the end. -/
theorem c7_witness :
    undoDelete (deleteTodo 1 ⟨[c7Todo1, c7Todo2], none, false⟩) =
      ⟨[c7Todo2, c7Todo1], none, false⟩ := by
rw [(c7_delete_undo ⟨[c7Todo1, c7Todo2], none, false⟩ 1 c7Todo1 (by decide)).2.2.2.1]
decide

/-- C6 counterexample: `"42"` is syntactically valid JSON that does not
have task-array shape, yet `importFromJSON` reports success and replaces
the whole collection with the number it parsed — there is no shape
validation. -/
theorem c6_cex_shape_unchecked :
    importFromJSON "42" (JsValue.arr []) = (true, JsValue.num "42") ∧
    specTaskArrayShape (JsValue.num "42") = false :=
⟨rfl, rfl⟩

/-- C6 (amended): `importFromJSON` fails exactly on JSON parse errors, in
which case the collection is left untouched; on any syntactically valid
JSON it succeeds and replaces the collection with precisely the parsed
value (not merged), with no task-array shape check. -/
theorem c6_import_parse (s : String) (st : JsValue) :
    (jsonParse s = none → importFromJSON s st = (false, st)) ∧
    (∀ v : JsValue, jsonParse s = some v → importFromJSON s st = (true, v)) := by
constructor
· intro h
  unfold importFromJSON
  rw [h]
· intro v h
  unfold importFromJSON
  rw [h]

/-- Witness for C6: importing the unparsable string `"["` fails and leaves
the collection unchanged. -/
theorem c6_witness :
    importFromJSON "[" (JsValue.arr []) = (false, JsValue.arr []) :=
(c6_import_parse "[" (JsValue.arr [])).1 rfl

/-! ### Calendar normalization lemmas for C2 -/

theorem normDaysAux_stop (f y m d : Nat) (h : ¬ daysInMonth y m < d) :
    normDaysAux f y m d = ⟨y, m, d⟩ := by
cases f with
| zero => rfl
| succ f =>
  unfold normDaysAux
  rw [if_neg h]

theorem normDays_stop {y m d : Nat} (h : d ≤ daysInMonth y m) :
    normDays y m d = ⟨y, m, d⟩ :=
normDaysAux_stop d y m d (by omega)

theorem normDaysAux_fuel (d : Nat) : ∀ (f1 f2 y m : Nat), d ≤ f1 → d ≤ f2 →
    normDaysAux f1 y m d = normDaysAux f2 y m d := by
induction d using Nat.strong_induction_on with
| _ d ih =>
  intro f1 f2 y m h1 h2
  by_cases h : daysInMonth y m < d
  · have hpos := daysInMonth_pos y m
    have hge := daysInMonth_ge y m
    cases f1 with
    | zero => omega
    | succ f1 =>
      cases f2 with
      | zero => omega
      | succ f2 =>
        unfold normDaysAux
        rw [if_pos h, if_pos h]
        exact ih _ (by omega) _ _ _ _ (by omega) (by omega)
  · rw [normDaysAux_stop f1 y m d h, normDaysAux_stop f2 y m d h]

theorem normDays_step {y m d : Nat} (h : daysInMonth y m < d) :
    normDays y m d = normDays (if 12 ≤ m then y + 1 else y)
      (if 12 ≤ m then 1 else m + 1) (d - daysInMonth y m) := by
have hpos := daysInMonth_pos y m
obtain ⟨e, rfl⟩ : ∃ e, d = e + 1 := ⟨d - 1, by omega⟩
unfold normDays
conv_lhs => rw [normDaysAux]
rw [if_pos h]
apply normDaysAux_fuel <;> omega

theorem normDays_add_iterate : ∀ (k : Nat) (dt : CalDate), validDate dt →
    normDays dt.year dt.month (dt.day + k) = specNextCalendarDay^[k] dt := by
intro k
induction k with
| zero =>
  intro dt h
  rw [Function.iterate_zero_apply]
  exact normDays_stop h.2.2.2
| succ k ih =>
  intro dt h
  obtain ⟨h1, h2, h3, h4⟩ := h
  by_cases hlt : dt.day < daysInMonth dt.year dt.month
  · have harg : dt.day + (k + 1) = (dt.day + 1) + k := by omega
    rw [harg]
    have hnext : specNextCalendarDay dt = ⟨dt.year, dt.month, dt.day + 1⟩ := by
      unfold specNextCalendarDay
      rw [if_pos hlt]
    have hv : validDate ⟨dt.year, dt.month, dt.day + 1⟩ :=
      ⟨h1, h2, by show 1 ≤ dt.day + 1; omega,
       by show dt.day + 1 ≤ daysInMonth dt.year dt.month; omega⟩
    rw [Function.iterate_succ_apply, hnext]
    exact ih ⟨dt.year, dt.month, dt.day + 1⟩ hv
  · have hstep : daysInMonth dt.year dt.month < dt.day + (k + 1) := by omega
    rw [normDays_step hstep]
    have harg : dt.day + (k + 1) - daysInMonth dt.year dt.month = 1 + k := by omega
    rw [harg]
    by_cases h12 : 12 ≤ dt.month
    · rw [if_pos h12, if_pos h12]
      have hnext : specNextCalendarDay dt = ⟨dt.year + 1, 1, 1⟩ := by
        unfold specNextCalendarDay
        rw [if_neg hlt, if_neg (by omega)]
      have hv : validDate ⟨dt.year + 1, 1, 1⟩ :=
        ⟨by show 1 ≤ 1; omega, by show (1:Nat) ≤ 12; omega, by show 1 ≤ 1; omega,
         by show 1 ≤ daysInMonth (dt.year + 1) 1
            have := daysInMonth_pos (dt.year + 1) 1
            omega⟩
      rw [Function.iterate_succ_apply, hnext]
      exact ih ⟨dt.year + 1, 1, 1⟩ hv
    · rw [if_neg h12, if_neg h12]
      have hnext : specNextCalendarDay dt = ⟨dt.year, dt.month + 1, 1⟩ := by
        unfold specNextCalendarDay
        rw [if_neg hlt, if_pos (by omega)]
      have hv : validDate ⟨dt.year, dt.month + 1, 1⟩ :=
        ⟨by show 1 ≤ dt.month + 1; omega, by show dt.month + 1 ≤ 12; omega,
         by show 1 ≤ 1; omega,
         by show 1 ≤ daysInMonth dt.year (dt.month + 1)
            have := daysInMonth_pos dt.year (dt.month + 1)
            omega⟩
      rw [Function.iterate_succ_apply, hnext]
      exact ih ⟨dt.year, dt.month + 1, 1⟩ hv

/-- C2: the next-due-date computation is a pure function of the current due
date and the recurrence kind: `daily` advances one calendar day, `weekly`
advances seven calendar days, and `monthly` moves to the same day of the
next calendar month, a day overflow rolling over calendar-correctly into
the following month; in particular `monthly` on `2024-12-15` yields
`2025-01-15`. -/
theorem c2_next_due_date (dt : CalDate) (h : validDate dt) :
    nextDueDateCal dt RecurringType.daily = specNextCalendarDay dt ∧
    nextDueDateCal dt RecurringType.weekly = specNextCalendarDay^[7] dt ∧
    (dt.day ≤ daysInMonth (specSameDayNextMonth dt).year (specSameDayNextMonth dt).month →
      nextDueDateCal dt RecurringType.monthly = specSameDayNextMonth dt) ∧
    (daysInMonth (specSameDayNextMonth dt).year (specSameDayNextMonth dt).month < dt.day →
      nextDueDateCal dt RecurringType.monthly = specSameDayNextMonth
        ⟨(specSameDayNextMonth dt).year, (specSameDayNextMonth dt).month,
         dt.day - daysInMonth (specSameDayNextMonth dt).year (specSameDayNextMonth dt).month⟩) ∧
    getNextDueDate "2024-12-15" RecurringType.monthly = "2025-01-15" := by
obtain ⟨h1, h2, h3, h4⟩ := h
refine ⟨?_, ?_, ?_, ?_, by decide⟩
· show normDays dt.year dt.month (dt.day + 1) = specNextCalendarDay dt
  have hit := normDays_add_iterate 1 dt ⟨h1, h2, h3, h4⟩
  simpa using hit
· show normDays dt.year dt.month (dt.day + 7) = specNextCalendarDay^[7] dt
  exact normDays_add_iterate 7 dt ⟨h1, h2, h3, h4⟩
· intro hle
  by_cases h12 : dt.month = 12
  · have hsd : specSameDayNextMonth dt = ⟨dt.year + 1, 1, dt.day⟩ := by
      unfold specSameDayNextMonth
      rw [if_pos h12]
    rw [hsd] at hle ⊢
    show nextDueDateCal dt RecurringType.monthly = _
    unfold nextDueDateCal
    rw [if_pos h12]
    exact normDays_stop hle
  · have hsd : specSameDayNextMonth dt = ⟨dt.year, dt.month + 1, dt.day⟩ := by
      unfold specSameDayNextMonth
      rw [if_neg h12]
    rw [hsd] at hle ⊢
    show nextDueDateCal dt RecurringType.monthly = _
    unfold nextDueDateCal
    rw [if_neg h12]
    exact normDays_stop hle
· intro hgt
  by_cases h12 : dt.month = 12
  · have hsd : specSameDayNextMonth dt = ⟨dt.year + 1, 1, dt.day⟩ := by
      unfold specSameDayNextMonth
      rw [if_pos h12]
    rw [hsd] at hgt
    have hja : daysInMonth (dt.year + 1) 1 = 31 := by
      unfold daysInMonth
      norm_num
    have hde : daysInMonth dt.year dt.month ≤ 31 := daysInMonth_le _ _
    exact absurd hgt (by simp only [hja] at *; omega)
  · have hsd : specSameDayNextMonth dt = ⟨dt.year, dt.month + 1, dt.day⟩ := by
      unfold specSameDayNextMonth
      rw [if_neg h12]
    rw [hsd] at hgt ⊢
    show nextDueDateCal dt RecurringType.monthly = _
    unfold nextDueDateCal
    rw [if_neg h12]
    simp only at hgt
    rw [normDays_step hgt]
    have hub : dt.day ≤ 31 := le_trans h4 (daysInMonth_le _ _)
    have hge2 := daysInMonth_ge dt.year (dt.month + 1)
    by_cases h11 : dt.month = 11
    · rw [if_pos (by omega), if_pos (by omega)]
      have hstop : dt.day - daysInMonth dt.year (dt.month + 1) ≤
          daysInMonth (dt.year + 1) 1 := by
        have := daysInMonth_ge (dt.year + 1) 1
        omega
      rw [normDays_stop hstop]
      unfold specSameDayNextMonth
      rw [if_pos (by simp only; omega)]
    · rw [if_neg (by omega), if_neg (by omega)]
      have hstop : dt.day - daysInMonth dt.year (dt.month + 1) ≤
          daysInMonth dt.year (dt.month + 1 + 1) := by
        have := daysInMonth_ge dt.year (dt.month + 1 + 1)
        omega
      rw [normDays_stop hstop]
      unfold specSameDayNextMonth
      rw [if_neg (by simp only; omega)]

/-- Witness for C2: the daily rule on 2024-06-15 is the next-calendar-day
function. -/
theorem c2_witness :
    nextDueDateCal ⟨2024, 6, 15⟩ RecurringType.daily =
      specNextCalendarDay ⟨2024, 6, 15⟩ :=
(c2_next_due_date ⟨2024, 6, 15⟩ (by decide)).1

/-- C1: toggling an incomplete task that has both a recurrence rule and a
(non-empty) due date marks the original completed (`completedAt` = now, the
recurrence rule stripped), leaves every other task unchanged, and appends
exactly one new sibling task carrying the same text, priority, category,
tags, notes and time estimate, the freshly generated identifier (assumed
not to collide with an existing one), `completed = false` with no
`completedAt`, `createdAt` = now, the due date advanced one recurrence
period by `getNextDueDate`, the pomodoro fields cleared with the count
reset to 0, and the subtasks copied with completion reset and fresh
identifiers derived from the new parent identifier. -/
theorem c1_toggle_recurring
    (todos : List Todo) (id idOffset nowMs : Int) (nowISO : String) (todo : Todo)
    (hfind : todos.find? (fun t => t.id == id) = some todo)
    (hnc : todo.completed = false)
    (r : RecurringType) (hr : todo.recurring = some r)
    (dd : String) (hdd : todo.dueDate = some dd) (hne : dd ≠ "")
    (hfresh : ∀ t ∈ todos, t.id ≠ nowMs + idOffset) :
    List.Forall₂ (fun t u => if t.id = id
        then u = { t with completed := true, completedAt := some nowISO,
                          recurring := none }
        else u = t)
      todos ((toggleTodo id idOffset nowMs nowISO todos).dropLast) ∧
    (toggleTodo id idOffset nowMs nowISO todos).getLast? = some
      { todo with
        id := nowMs + idOffset
        completed := false
        createdAt := nowISO
        completedAt := none
        dueDate := some (getNextDueDate dd r)
        pomodoroStartTime := none
        pomodoroDuration := none
        pomodoroPaused := none
        pomodoroTimeRemaining := none
        pomodoroIsBreak := none
        pomodoroCount := some 0
        subtasks := todo.subtasks.map (fun sts => sts.enum.map (fun p =>
          { p.2 with id := nowMs + idOffset + (p.1 : Int) + 1,
                     completed := false })) } ∧
    ∀ u ∈ (toggleTodo id idOffset nowMs nowISO todos).dropLast,
      u.id ≠ nowMs + idOffset := by
have hb : (!todo.completed && todo.recurring.isSome && truthyStr todo.dueDate) = true := by
  rw [hnc, hr, hdd]
  simp [truthyStr, hne]
have hres : toggleTodo id idOffset nowMs nowISO todos =
    todos.map (markCompletedUpd id nowISO)
      ++ [spawnRecurringTodo todo (nowMs + idOffset) nowISO] := by
  unfold toggleTodo
  simp only [hfind]
  rw [if_pos hb]
refine ⟨?_, ?_, ?_⟩
· rw [hres, List.dropLast_concat, List.forall₂_map_right_iff, List.forall₂_same]
  intro x _
  unfold markCompletedUpd
  by_cases hxid : x.id = id
  · rw [if_pos hxid, if_pos (show (x.id == id) = true by simpa using hxid)]
  · rw [if_neg hxid, if_neg (show ¬ (x.id == id) = true by simpa using hxid)]
· rw [hres, List.getLast?_concat]
  unfold spawnRecurringTodo
  rw [hdd, hr]
  rfl
· rw [hres, List.dropLast_concat]
  intro u hu
  rcases List.mem_map.mp hu with ⟨a, ha, rfl⟩
  have hid : (markCompletedUpd id nowISO a).id = a.id := by
    unfold markCompletedUpd
    split <;> rfl
  rw [hid]
  exact hfresh a ha

/-- An incomplete daily-recurring task with a due date, for the C1
witness. -/
def c1Todo : Todo :=
{ id := 1, text := "water plants", completed := false, createdAt := "c0",
  dueDate := some "2024-06-15", recurring := some RecurringType.daily }

/-- Witness for C1: on a one-task collection, toggling appends exactly the
spawned sibling described by the claim. -/
theorem c1_witness :
    (toggleTodo 1 2 100 "ISO" [c1Todo]).getLast? = some
      { c1Todo with
        id := 100 + 2, completed := false, createdAt := "ISO",
        completedAt := none,
        dueDate := some (getNextDueDate "2024-06-15" RecurringType.daily),
        pomodoroStartTime := none, pomodoroDuration := none,
        pomodoroPaused := none, pomodoroTimeRemaining := none,
        pomodoroIsBreak := none, pomodoroCount := some 0, subtasks := none } :=
(c1_toggle_recurring [c1Todo] 1 2 100 "ISO" c1Todo (by decide) rfl
  RecurringType.daily rfl "2024-06-15" rfl (by decide) (by decide)).2.1

/-! ### Lemmas about the binary64 rounding `fl` (for C8) -/

theorem natLog2F_spec : ∀ (f n : Nat), 1 ≤ n → n ≤ f →
    2 ^ natLog2F f n ≤ n ∧ n < 2 ^ (natLog2F f n + 1) := by
intro f
induction f with
| zero =>
  intro n h1 h2
  omega
| succ f ih =>
  intro n h1 h2
  unfold natLog2F
  split
  · rename_i h
    obtain ⟨hrec1, hrec2⟩ := ih (n / 2) (by omega) (by omega)
    have hs1 : (2:ℕ) ^ (natLog2F f (n / 2) + 1) = 2 * 2 ^ natLog2F f (n / 2) := by
      rw [pow_succ]; ring
    have hs2 : (2:ℕ) ^ (natLog2F f (n / 2) + 1 + 1) =
        2 * (2 * 2 ^ natLog2F f (n / 2)) := by
      rw [pow_succ, pow_succ]; ring
    rw [hs1, hs2]
    rw [hs1] at hrec2
    omega
  · rename_i h
    simp only [pow_zero, pow_one]
    omega

theorem natLog2_spec (n : Nat) (h : 1 ≤ n) :
    2 ^ natLog2 n ≤ n ∧ n < 2 ^ (natLog2 n + 1) :=
natLog2F_spec n n h le_rfl

/-- The computed floor logarithm brackets a positive rational between
consecutive powers of two. -/
theorem ratFloorLog2_bracket (q : ℚ) (hq : 0 < q) :
    (2:ℚ) ^ ratFloorLog2 q ≤ q ∧ q < (2:ℚ) ^ (ratFloorLog2 q + 1) := by
have hnum : 0 < q.num := Rat.num_pos.mpr hq
unfold ratFloorLog2
set a := q.num.natAbs with hadef
set b := q.den with hbdef
have ha1 : 1 ≤ a := by rw [hadef]; omega
have hb1 : 1 ≤ b := q.pos
obtain ⟨la1, la2⟩ := natLog2_spec a ha1
obtain ⟨lb1, lb2⟩ := natLog2_spec b hb1
have hbq : (0:ℚ) < (b:ℚ) := by exact_mod_cast hb1
have hqab : q = (a:ℚ) / (b:ℚ) := by
  have h0 : ((a : ℤ)) = q.num := by
    rw [hadef]
    exact Int.natAbs_of_nonneg (le_of_lt hnum)
  have h1 : ((a:ℚ)) = ((q.num : ℤ) : ℚ) := by
    rw [← h0]
    push_cast
    ring
  rw [hbdef, h1]
  exact (Rat.num_div_den q).symm
split
· rename_i hle
  split
  · rename_i hguard
    constructor
    · rw [zpow_natCast, hqab, le_div_iff₀ hbq]
      have hnat : (2:ℕ) ^ (natLog2 a - natLog2 b) * b ≤ a := by
        calc (2:ℕ) ^ (natLog2 a - natLog2 b) * b
            = b * 2 ^ (natLog2 a - natLog2 b) := by ring
        _ ≤ a := hguard
      exact_mod_cast hnat
    · rw [show ((natLog2 a - natLog2 b : ℕ) : ℤ) + 1
          = ((natLog2 a - natLog2 b + 1 : ℕ) : ℤ) by push_cast; ring,
        zpow_natCast, hqab, div_lt_iff₀ hbq]
      have hnat : a < 2 ^ (natLog2 a - natLog2 b + 1) * b := by
        have hpow : (2:ℕ) ^ (natLog2 a + 1)
            = 2 ^ (natLog2 a - natLog2 b + 1) * 2 ^ natLog2 b := by
          rw [← pow_add]
          congr 1
          omega
        calc a < 2 ^ (natLog2 a + 1) := la2
        _ = 2 ^ (natLog2 a - natLog2 b + 1) * 2 ^ natLog2 b := hpow
        _ ≤ 2 ^ (natLog2 a - natLog2 b + 1) * b := mul_le_mul_left' lb1 _
      exact_mod_cast hnat
  · rename_i hguard
    have hlt : a < b * 2 ^ (natLog2 a - natLog2 b) := by omega
    constructor
    · rw [zpow_sub₀ (by norm_num : (2:ℚ) ≠ 0), zpow_one, zpow_natCast, hqab,
        div_le_div_iff₀ (by norm_num) hbq]
      have hnat : (2:ℕ) ^ (natLog2 a - natLog2 b) * b < 2 * a := by
        calc (2:ℕ) ^ (natLog2 a - natLog2 b) * b
            < 2 ^ (natLog2 a - natLog2 b) * 2 ^ (natLog2 b + 1) :=
          mul_lt_mul_of_pos_left lb2 (by positivity)
        _ = 2 * 2 ^ natLog2 a := by
          rw [← pow_add]
          rw [show natLog2 a - natLog2 b + (natLog2 b + 1) = natLog2 a + 1 by omega,
            pow_succ]
          ring
        _ ≤ 2 * a := by omega
      have hnat2 : (2:ℕ) ^ (natLog2 a - natLog2 b) * b ≤ a * 2 := by omega
      exact_mod_cast hnat2
    · rw [show ((natLog2 a - natLog2 b : ℕ) : ℤ) - 1 + 1
          = ((natLog2 a - natLog2 b : ℕ) : ℤ) by ring,
        zpow_natCast, hqab, div_lt_iff₀ hbq]
      have hnat : a < 2 ^ (natLog2 a - natLog2 b) * b := by
        calc a < b * 2 ^ (natLog2 a - natLog2 b) := hlt
        _ = 2 ^ (natLog2 a - natLog2 b) * b := by ring
      exact_mod_cast hnat
· rename_i hgt
  split
  · rename_i hguard
    constructor
    · rw [zpow_neg, zpow_natCast, ← one_div, hqab,
        div_le_div_iff₀ (by positivity) hbq]
      have hnat : (1:ℕ) * b ≤ a * 2 ^ (natLog2 b - natLog2 a) := by
        calc (1:ℕ) * b = b := by ring
        _ ≤ a * 2 ^ (natLog2 b - natLog2 a) := hguard
      exact_mod_cast hnat
    · rw [show -((natLog2 b - natLog2 a : ℕ) : ℤ) + 1
          = 1 - ((natLog2 b - natLog2 a : ℕ) : ℤ) by ring,
        zpow_sub₀ (by norm_num : (2:ℚ) ≠ 0), zpow_one, zpow_natCast, hqab,
        div_lt_div_iff₀ hbq (by positivity)]
      have hnat : a * 2 ^ (natLog2 b - natLog2 a) < 2 * b := by
        calc a * 2 ^ (natLog2 b - natLog2 a)
            < 2 ^ (natLog2 a + 1) * 2 ^ (natLog2 b - natLog2 a) :=
          mul_lt_mul_of_pos_right la2 (by positivity)
        _ = 2 * 2 ^ natLog2 b := by
          rw [← pow_add]
          rw [show natLog2 a + 1 + (natLog2 b - natLog2 a) = natLog2 b + 1 by omega,
            pow_succ]
          ring
        _ ≤ 2 * b := by omega
      exact_mod_cast hnat
  · rename_i hguard
    have hlt : a * 2 ^ (natLog2 b - natLog2 a) < b := by omega
    constructor
    · rw [show -((natLog2 b - natLog2 a : ℕ) : ℤ) - 1
          = -(((natLog2 b - natLog2 a + 1 : ℕ)) : ℤ) by push_cast; ring,
        zpow_neg, zpow_natCast, ← one_div, hqab,
        div_le_div_iff₀ (by positivity) hbq]
      have hnat : (1:ℕ) * b ≤ a * 2 ^ (natLog2 b - natLog2 a + 1) := by
        have hpow : (2:ℕ) ^ (natLog2 b + 1)
            = 2 ^ natLog2 a * 2 ^ (natLog2 b - natLog2 a + 1) := by
          rw [← pow_add]
          congr 1
          omega
        calc (1:ℕ) * b = b := by ring
        _ ≤ 2 ^ (natLog2 b + 1) := by omega
        _ = 2 ^ natLog2 a * 2 ^ (natLog2 b - natLog2 a + 1) := hpow
        _ ≤ a * 2 ^ (natLog2 b - natLog2 a + 1) := mul_le_mul_right' la1 _
      exact_mod_cast hnat
    · rw [show -((natLog2 b - natLog2 a : ℕ) : ℤ) - 1 + 1
          = -((natLog2 b - natLog2 a : ℕ) : ℤ) by ring,
        zpow_neg, zpow_natCast, ← one_div, hqab,
        div_lt_div_iff₀ hbq (by positivity)]
      have hnat : a * 2 ^ (natLog2 b - natLog2 a) < 1 * b := by omega
      exact_mod_cast hnat

/-- Two consecutive-power brackets of the same positive rational have the
same exponent, so `ratFloorLog2` is pinned by any bracketing. -/
theorem ratFloorLog2_eq (q : ℚ) (hq : 0 < q) (e : ℤ)
    (h1 : (2:ℚ)^e ≤ q) (h2 : q < (2:ℚ)^(e+1)) : ratFloorLog2 q = e := by
obtain ⟨b1, b2⟩ := ratFloorLog2_bracket q hq
by_contra hne
rcases lt_or_gt_of_ne hne with hl | hg
· have hmono : (2:ℚ)^(ratFloorLog2 q + 1) ≤ (2:ℚ)^e :=
    zpow_le_zpow_right₀ (by norm_num) (by omega)
  linarith
· have hmono : (2:ℚ)^(e+1) ≤ (2:ℚ)^(ratFloorLog2 q) :=
    zpow_le_zpow_right₀ (by norm_num) (by omega)
  linarith

/-- Evaluation rule for `fl`: if `q` lies in the binade `[2^(e+52),
2^(e+53))` and within half a quantum of `n·2^e`, then `fl q = n·2^e`. -/
theorem fl_eq_of (q : ℚ) (n e : ℤ) (he : -1074 ≤ e)
    (hlow : (2:ℚ)^(e+52) ≤ q) (hhigh : q < (2:ℚ)^(e+53))
    (hn1 : (n:ℚ) - 1/2 < q / (2:ℚ)^e) (hn2 : q / (2:ℚ)^e < (n:ℚ) + 1/2) :
    fl q = (n:ℚ) * (2:ℚ)^e := by
have hq : 0 < q := lt_of_lt_of_le (zpow_pos (by norm_num) (e+52)) hlow
have hflog : ratFloorLog2 q = e + 52 :=
  ratFloorLog2_eq q hq (e+52) hlow
    (by rw [show e + 52 + 1 = e + 53 by ring]; exact hhigh)
unfold fl
rw [if_neg (ne_of_gt hq), hflog,
  show max (e + 52 - 52) (-1074) = e by omega]
unfold roundToQuantum
rcases le_or_lt ((n:ℚ)) (q / (2:ℚ)^e) with hge | hlt
· have hfloor : ⌊q / (2:ℚ)^e⌋ = n :=
    Int.floor_eq_iff.mpr ⟨hge, by linarith⟩
  rw [hfloor, if_neg (by linarith), if_pos (by linarith)]
· have hfloor : ⌊q / (2:ℚ)^e⌋ = n - 1 :=
    Int.floor_eq_iff.mpr ⟨by push_cast; linarith, by push_cast; linarith⟩
  rw [hfloor, if_pos (by push_cast; linarith)]
  push_cast
  ring

/-- The double nearest to 2/3 (the division `2/3` of exact doubles 2 and
3 rounds to it). -/
theorem fl_two_thirds :
    fl ((2:ℚ)/3) = 6004799503160661 * (2:ℚ)^(-53:ℤ) := by
have h := fl_eq_of ((2:ℚ)/3) 6004799503160661 (-53) (by norm_num)
  (by norm_num) (by norm_num) (by norm_num) (by norm_num)
push_cast at h
exact h

/-- The double product of the double nearest 2/3 with 100. -/
theorem fl_two_thirds_hundred :
    fl (6004799503160661 * (2:ℚ)^(-53:ℤ) * 100)
      = 4691249611844266 * (2:ℚ)^(-46:ℤ) := by
have h := fl_eq_of (6004799503160661 * (2:ℚ)^(-53:ℤ) * 100)
  4691249611844266 (-46) (by norm_num) (by norm_num) (by norm_num)
  (by norm_num) (by norm_num)
push_cast at h
exact h

/-- The double nearest to 23/40. -/
theorem fl_twentythree_fortieths :
    fl ((23:ℚ)/40) = 5179139571476070 * (2:ℚ)^(-53:ℤ) := by
have h := fl_eq_of ((23:ℚ)/40) 5179139571476070 (-53) (by norm_num)
  (by norm_num) (by norm_num) (by norm_num) (by norm_num)
push_cast at h
exact h

/-- The double product of the double nearest 23/40 with 100: its exact
value is strictly below 57.5, which is why the code reports 57. -/
theorem fl_twentythree_fortieths_hundred :
    fl (5179139571476070 * (2:ℚ)^(-53:ℤ) * 100)
      = 8092405580431359 * (2:ℚ)^(-47:ℤ) := by
have h := fl_eq_of (5179139571476070 * (2:ℚ)^(-53:ℤ) * 100)
  8092405580431359 (-47) (by norm_num) (by norm_num) (by norm_num)
  (by norm_num) (by norm_num)
push_cast at h
exact h

/-- A constant stand-in for the environment-dependent `new Date(s)`
parsing, used to instantiate statistics statements. -/
def zeroParse : String → Int := fun _ => 0

/-- C8 counterexample: on the empty list `byPriority` is not an empty map —
it is seeded with the three priority keys at count 0. -/
theorem c8_cex_byPriority_not_empty :
    (calculateStats zeroParse 0 0 []).byPriority =
      [("high", 0), ("medium", 0), ("low", 0)] ∧
    (calculateStats zeroParse 0 0 []).byPriority ≠ [] :=
⟨by decide, by decide⟩

/-- The number of completed tasks of a list. -/
def completedCount (l : List Todo) : Nat :=
(l.filter (fun t => t.completed)).length

/-- A 3-task list with exactly 2 completed tasks. -/
def statsExample3 : List Todo :=
[{ id := 1, text := "a", completed := true, createdAt := "c", completedAt := some "x" },
 { id := 2, text := "b", completed := true, createdAt := "c", completedAt := some "y" },
 { id := 3, text := "c", completed := false, createdAt := "c" }]

/-- A 40-task list with exactly 23 completed tasks, on which the IEEE
double computation of the completion rate diverges from exact rounding. -/
def statsExample40 : List Todo :=
(List.range 40).map (fun i =>
  { id := (i : Int), text := "t", completed := decide (i < 23), createdAt := "c" })

/-- C8 (amended): `calculateStats` on the empty list yields `total = 0`,
`completionRate = 0`, empty `byCategory` and `byTag` maps, and a
`byPriority` map holding the three priority keys each at count 0 (not an
empty map); on every non-empty list `completionRate` is `Math.round` of
the IEEE-754 double-precision evaluation of `(completed/total) * 100`
(the division and the multiplication each round to nearest double).  This
agrees with exact `round(100 × completed/total)` on a 3-task list with
exactly 2 completed tasks — both give `round(100 × 2/3) = 67` — but not
universally: 23 completed of 40 yields 57, while exact rounding gives
`round(100 × 23/40) = 58`. -/
theorem c8_stats (parse : String → Int) (noww todayStart : Int) :
    (calculateStats parse noww todayStart [] =
      { total := 0, active := 0, completed := 0, completedToday := 0,
        completedThisWeek := 0, totalPomodoros := 0, pomodoroMinutes := 0,
        totalTimeEstimate := 0, overdue := 0, completionRate := 0,
        byCategory := [], byPriority := [("high", 0), ("medium", 0), ("low", 0)],
        byTag := [] }) ∧
    (∀ todos : List Todo, todos ≠ [] →
      (calculateStats parse noww todayStart todos).completionRate =
        jsRound (fl (fl ((completedCount todos : ℚ) / (todos.length : ℚ)) * 100))) ∧
    ((calculateStats parse noww todayStart statsExample3).completionRate = 67 ∧
     jsRound (100 * 2 / 3) = 67) ∧
    ((calculateStats parse noww todayStart statsExample40).completionRate = 57 ∧
     jsRound (100 * 23 / 40) = 58) := by
have hrate : ∀ todos : List Todo, todos ≠ [] →
    (calculateStats parse noww todayStart todos).completionRate =
      jsRound (fl (fl ((completedCount todos : ℚ) / (todos.length : ℚ)) * 100)) := by
  intro todos hne
  have hlen : todos.length > 0 := List.length_pos.mpr hne
  unfold calculateStats completedCount
  dsimp only
  rw [if_pos hlen]
refine ⟨rfl, hrate, ⟨?_, ?_⟩, ⟨?_, ?_⟩⟩
· rw [hrate statsExample3 (by decide),
    show ((completedCount statsExample3 : ℚ)) = 2 by
      rw [show completedCount statsExample3 = 2 from by decide]; norm_num,
    show ((statsExample3.length : ℚ)) = 3 by
      rw [show statsExample3.length = 3 from by decide]; norm_num,
    fl_two_thirds, fl_two_thirds_hundred]
  unfold jsRound
  norm_num
· unfold jsRound
  norm_num
· rw [hrate statsExample40 (by decide),
    show ((completedCount statsExample40 : ℚ)) = 23 by
      rw [show completedCount statsExample40 = 23 from by decide]; norm_num,
    show ((statsExample40.length : ℚ)) = 40 by
      rw [show statsExample40.length = 40 from by decide]; norm_num,
    fl_twentythree_fortieths, fl_twentythree_fortieths_hundred]
  unfold jsRound
  norm_num
· unfold jsRound
  norm_num

/-- Witness for C8: the double-precision completion-rate formula
instantiated on the concrete 3-task list. -/
theorem c8_witness :
    (calculateStats zeroParse 0 0 statsExample3).completionRate =
      jsRound (fl (fl ((completedCount statsExample3 : ℚ)
        / (statsExample3.length : ℚ)) * 100)) :=
(c8_stats zeroParse 0 0).2.1 statsExample3 (by decide)

end TodoApp
